import Mathlib

/-!
Verification of the maritime-twin routing and simulation core.

This file gives a shallow embedding, in Lean 4, of the routing core of the
maritime digital-twin repository: the geographic primitives
(`src/maritime-twin/src/utils/geo.ts`, `src/maritime-twin/src/domain/graph/dateline.ts`),
the graph index (`GraphIndex.loadFromData`, `isEdgeDisabled`, toggles), the
dateline bridging (`addDatelineBridges`), the router
(`DijkstraRouter.findPath` of `src/Front-End/maritime-twin/src/domain/routing/Dijkstra.ts`,
the variant that supports delay penalties), the route stitcher
(`stitchRouteSegments`) and the position interpolator (`getPointAlongRoute`).

Modelling conventions:
  * JavaScript numbers are modelled as real numbers (`ℝ`); there is no NaN in
    the model (`Real.sqrt` of a negative argument is `0`).
  * JavaScript objects used as string-keyed dictionaries are modelled as
    association lists `List (String × α)` in insertion order, with JS
    key-assignment semantics (`aset`: overwrite in place, else append).
  * A JS value that may be `undefined`/`null` is modelled as an `Option`.
  * A JS `TypeError` (member access on `undefined`) is modelled explicitly as
    an error outcome of the embedded function.
  * Loops are modelled either structurally or with an explicit fuel that is
    proved sufficient.
-/

/-- A geometry point `[lon, lat]`, as stored in edge geometry arrays. -/
abbrev GeoPt : Type := ℝ × ℝ

/-- Models JavaScript `Math.atan2 y x` (note the argument order `(y, x)`). -/
noncomputable def jsAtan2 (y x : ℝ) : ℝ :=
  if 0 < x then Real.arctan (y / x)
  else if x < 0 then
    (if 0 ≤ y then Real.arctan (y / x) + Real.pi else Real.arctan (y / x) - Real.pi)
  else
    (if 0 < y then Real.pi / 2 else if y < 0 then -(Real.pi / 2) else 0)

/-- Models `deg2rad` of `src/maritime-twin/src/utils/geo.ts`. -/
noncomputable def deg2rad (deg : ℝ) : ℝ := deg * (Real.pi / 180)

/-- Models `haversineDistance(lat1, lon1, lat2, lon2)` of
`src/maritime-twin/src/utils/geo.ts` (Earth radius 6371 km). -/
noncomputable def haversineDistance (lat1 lon1 lat2 lon2 : ℝ) : ℝ :=
  let R : ℝ := 6371
  let dLat := deg2rad (lat2 - lat1)
  let dLon := deg2rad (lon2 - lon1)
  let a := Real.sin (dLat / 2) * Real.sin (dLat / 2) +
    Real.cos (deg2rad lat1) * Real.cos (deg2rad lat2) *
    (Real.sin (dLon / 2) * Real.sin (dLon / 2))
  let c := 2 * jsAtan2 (Real.sqrt a) (Real.sqrt (1 - a))
  R * c

/-- Models `haversineDistancePoints(a, b)` of `geo.ts`: haversine distance
between two `[lon, lat]` points. -/
noncomputable def haversineDistancePoints (a b : GeoPt) : ℝ :=
  haversineDistance a.2 a.1 b.2 b.1

lemma arctan_nonneg_of_nonneg {t : ℝ} (h : 0 ≤ t) : 0 ≤ Real.arctan t := by
  have := Real.arctan_strictMono.monotone h
  rwa [Real.arctan_zero] at this

lemma jsAtan2_nonneg_of_nonneg {y x : ℝ} (hy : 0 ≤ y) (hx : 0 ≤ x) :
    0 ≤ jsAtan2 y x := by
  unfold jsAtan2
  rcases lt_or_eq_of_le hx with hx' | hx'
  · rw [if_pos hx']
    exact arctan_nonneg_of_nonneg (div_nonneg hy hx'.le)
  · rw [if_neg (by rw [← hx']; exact lt_irrefl 0), if_neg (by rw [← hx']; exact lt_irrefl 0)]
    rcases lt_or_eq_of_le hy with hy' | hy'
    · rw [if_pos hy']
      positivity
    · rw [if_neg (by rw [← hy']; exact lt_irrefl 0), if_neg (by rw [← hy']; exact lt_irrefl 0)]

lemma jsAtan2_zero_one : jsAtan2 0 1 = 0 := by
  unfold jsAtan2
  rw [if_pos one_pos]
  simp

lemma jsAtan2_sqrt_nonneg (a : ℝ) :
    0 ≤ jsAtan2 (Real.sqrt a) (Real.sqrt (1 - a)) :=
  jsAtan2_nonneg_of_nonneg (Real.sqrt_nonneg a) (Real.sqrt_nonneg (1 - a))

/-- The haversine distance is never negative. -/
lemma haversineDistance_nonneg (lat1 lon1 lat2 lon2 : ℝ) :
    0 ≤ haversineDistance lat1 lon1 lat2 lon2 := by
  have h := jsAtan2_sqrt_nonneg
    (Real.sin (deg2rad (lat2 - lat1) / 2) * Real.sin (deg2rad (lat2 - lat1) / 2) +
      Real.cos (deg2rad lat1) * Real.cos (deg2rad lat2) *
      (Real.sin (deg2rad (lon2 - lon1) / 2) * Real.sin (deg2rad (lon2 - lon1) / 2)))
  unfold haversineDistance
  dsimp only
  nlinarith [h]

lemma haversineDistancePoints_nonneg (a b : GeoPt) :
    0 ≤ haversineDistancePoints a b :=
  haversineDistance_nonneg _ _ _ _

/-- The haversine distance from a point to itself is zero. -/
lemma haversineDistance_self (lat lon : ℝ) :
    haversineDistance lat lon lat lon = 0 := by
  unfold haversineDistance deg2rad
  simp [jsAtan2_zero_one]

lemma haversineDistancePoints_self (a : GeoPt) :
    haversineDistancePoints a a = 0 :=
  haversineDistance_self _ _

/-- Models the loop `while (delta > 180) delta -= 360` used by
`wrappedLonDelta` in `src/maritime-twin/src/domain/graph/dateline.ts` and by
the longitude normalisation in `getPointAlongRoute`. -/
noncomputable def wrapDown (d : ℝ) : ℝ :=
  if h : 180 < d then wrapDown (d - 360) else d
termination_by (⌈(d - 180) / 360⌉).toNat
decreasing_by
  have h1 : (0 : ℝ) < (d - 180) / 360 := by
    apply div_pos <;> linarith
  have h2 : (1 : ℤ) ≤ ⌈(d - 180) / 360⌉ := by
    exact_mod_cast Int.ceil_pos.mpr h1
  have h3 : ⌈(d - 360 - 180) / 360⌉ = ⌈(d - 180) / 360⌉ - 1 := by
    rw [show (d - 360 - 180) / 360 = (d - 180) / 360 - 1 by ring]
    exact Int.ceil_sub_one _
  rw [h3]
  omega

/-- Models the loop `while (delta < -180) delta += 360`. -/
noncomputable def wrapUp (d : ℝ) : ℝ :=
  if h : d < -180 then wrapUp (d + 360) else d
termination_by (⌈(-180 - d) / 360⌉).toNat
decreasing_by
  have h1 : (0 : ℝ) < (-180 - d) / 360 := by
    apply div_pos <;> linarith
  have h2 : (1 : ℤ) ≤ ⌈(-180 - d) / 360⌉ := by
    exact_mod_cast Int.ceil_pos.mpr h1
  have h3 : ⌈(-180 - (d + 360)) / 360⌉ = ⌈(-180 - d) / 360⌉ - 1 := by
    rw [show (-180 - (d + 360)) / 360 = (-180 - d) / 360 - 1 by ring]
    exact Int.ceil_sub_one _
  rw [h3]
  omega

lemma wrapDown_of_le {d : ℝ} (h : d ≤ 180) : wrapDown d = d := by
  rw [wrapDown]
  simp [not_lt.mpr h]

lemma wrapDown_of_gt {d : ℝ} (h : 180 < d) : wrapDown d = wrapDown (d - 360) := by
  rw [wrapDown]
  simp [h]

lemma wrapUp_of_ge {d : ℝ} (h : -180 ≤ d) : wrapUp d = d := by
  rw [wrapUp]
  simp [not_lt.mpr h]

lemma wrapUp_of_lt {d : ℝ} (h : d < -180) : wrapUp d = wrapUp (d + 360) := by
  rw [wrapUp]
  simp [h]

/-- Models `wrappedLonDelta(lon1, lon2)` of `dateline.ts`: signed longitude
difference normalised into `[-180, 180]` by the two wrap loops. -/
noncomputable def wrappedLonDelta (lon1 lon2 : ℝ) : ℝ :=
  wrapUp (wrapDown (lon2 - lon1))

lemma wrappedLonDelta_self (lon : ℝ) : wrappedLonDelta lon lon = 0 := by
  unfold wrappedLonDelta
  rw [sub_self, wrapDown_of_le (by norm_num), wrapUp_of_ge (by norm_num)]

/-- Models `heuristic(nodeA, nodeB)` of `dateline.ts`: haversine distance with
dateline-aware longitude delta, used as the A* heuristic by the router. -/
noncomputable def nodeHeuristic (latA lonA latB lonB : ℝ) : ℝ :=
  let R : ℝ := 6371
  let dLat := (latB - latA) * Real.pi / 180
  let dLon := wrappedLonDelta lonA lonB * Real.pi / 180
  let lat1 := latA * Real.pi / 180
  let lat2 := latB * Real.pi / 180
  let a := Real.sin (dLat / 2) * Real.sin (dLat / 2) +
    Real.cos lat1 * Real.cos lat2 * (Real.sin (dLon / 2) * Real.sin (dLon / 2))
  let c := 2 * jsAtan2 (Real.sqrt a) (Real.sqrt (1 - a))
  R * c

lemma nodeHeuristic_nonneg (latA lonA latB lonB : ℝ) :
    0 ≤ nodeHeuristic latA lonA latB lonB := by
  have h := jsAtan2_sqrt_nonneg
    (Real.sin ((latB - latA) * Real.pi / 180 / 2) * Real.sin ((latB - latA) * Real.pi / 180 / 2) +
      Real.cos (latA * Real.pi / 180) * Real.cos (latB * Real.pi / 180) *
      (Real.sin (wrappedLonDelta lonA lonB * Real.pi / 180 / 2) *
        Real.sin (wrappedLonDelta lonA lonB * Real.pi / 180 / 2)))
  unfold nodeHeuristic
  dsimp only
  nlinarith [h]

/-- The heuristic between two nodes at identical coordinates is zero. -/
lemma nodeHeuristic_self (lat lon : ℝ) : nodeHeuristic lat lon lat lon = 0 := by
  unfold nodeHeuristic
  dsimp only
  rw [wrappedLonDelta_self]
  simp [jsAtan2_zero_one]

/-! ## Data model

Shapes from `src/maritime-twin/src/domain/types.ts` (shared across the
prototype trees). JS string-keyed records are association lists in insertion
order. -/

/-- Models the `Node` interface: a point of the navigable mesh. -/
structure GNode where
  id : String
  lat : ℝ
  lon : ℝ

/-- Models the `Edge` interface. -/
structure Edge where
  source : String
  target : String
  dist_km : ℝ
  geometry : List GeoPt
  chokepoints : List String
  lane_id : String

/-- Models the `Port` interface; `id` is optional in raw data and backfilled
at load time (the JS runtime tolerates a missing `id`). -/
structure Port where
  id : Option String
  name : String
  country : String
  lat : ℝ
  lon : ℝ
  node_id : String
  dist_to_node : ℝ

/-- Models the `Chokepoint` interface. -/
structure Chokepoint where
  name : String
  lat : ℝ
  lon : ℝ

/-- Association-list lookup, modelling JS `obj[k]` (`none` = `undefined`). -/
def aget {α : Type} : List (String × α) → String → Option α
  | [], _ => none
  | (k', v') :: rest, k => if k' = k then some v' else aget rest k

/-- Association-list assignment, modelling JS `obj[k] = v`: overwrite in
place if the key exists, else append (JS insertion-order semantics). -/
def aset {α : Type} : List (String × α) → String → α → List (String × α)
  | [], k, v => [(k, v)]
  | (k', v') :: rest, k, v =>
    if k' = k then (k, v) :: rest else (k', v') :: aset rest k v

@[simp] lemma aget_nil {α : Type} (k : String) : aget ([] : List (String × α)) k = none := rfl

@[simp] lemma aget_cons {α : Type} (k' : String) (v' : α) (rest : List (String × α)) (k : String) :
    aget ((k', v') :: rest) k = if k' = k then some v' else aget rest k := rfl

@[simp] lemma aset_nil {α : Type} (k : String) (v : α) :
    aset ([] : List (String × α)) k v = [(k, v)] := rfl

@[simp] lemma aset_cons {α : Type} (k' : String) (v' : α) (rest : List (String × α)) (k : String) (v : α) :
    aset ((k', v') :: rest) k v =
      if k' = k then (k, v) :: rest else (k', v') :: aset rest k v := rfl

lemma aget_aset_same {α : Type} (m : List (String × α)) (k : String) (v : α) :
    aget (aset m k v) k = some v := by
  induction m with
  | nil => simp
  | cons hd tl ih =>
    obtain ⟨k', v'⟩ := hd
    by_cases hk : k' = k
    · simp [hk]
    · simp [hk, ih]

lemma aget_aset_other {α : Type} (m : List (String × α)) (k k' : String) (v : α)
    (h : k ≠ k') : aget (aset m k v) k' = aget m k' := by
  induction m with
  | nil => simp [h]
  | cons hd tl ih =>
    obtain ⟨k0, v0⟩ := hd
    by_cases hk : k0 = k
    · subst hk
      simp [h]
    · simp only [aset_cons, if_neg hk, aget_cons]
      by_cases hk' : k0 = k'
      · simp [hk']
      · simp [hk', ih]

lemma aget_aset (m : List (String × α)) (k k' : String) (v : α) :
    aget (aset m k v) k' = if k = k' then some v else aget m k' := by
  by_cases h : k = k'
  · subst h
    simp [aget_aset_same]
  · simp [h, aget_aset_other m k k' v h]

/-- Keys of an association list. -/
def akeys {α : Type} (m : List (String × α)) : List String := m.map Prod.fst

lemma aget_isSome_aset {α : Type} (m : List (String × α)) (k k' : String) (v : α)
    (h : (aget m k').isSome) : (aget (aset m k v) k').isSome := by
  rw [aget_aset]
  by_cases hk : k = k'
  · simp [hk]
  · simpa [hk]

lemma aset_length_ge {α : Type} (m : List (String × α)) (k : String) (v : α) :
    m.length ≤ (aset m k v).length := by
  induction m with
  | nil => simp
  | cons hd tl ih =>
    obtain ⟨k0, v0⟩ := hd
    by_cases hk : k0 = k
    · simp [hk]
    · simp only [aset_cons, if_neg hk, List.length_cons]
      omega

/-! ## Dateline bridging (`src/maritime-twin/src/domain/graph/dateline.ts`) -/

/-- Models `if (!adjList[k]) adjList[k] = []; adjList[k].push(e)`. -/
def adjPush (adj : List (String × List Edge)) (k : String) (e : Edge) :
    List (String × List Edge) :=
  match aget adj k with
  | some es => aset adj k (es ++ [e])
  | none => aset adj k [e]

/-- West-side candidates of `addDatelineBridges`: nodes with `lon <= -179.5`,
in `Object.values` (insertion) order. -/
noncomputable def candidatesNeg (nodes : List (String × GNode)) : List GNode :=
  (nodes.map Prod.snd).filter (fun n => decide (n.lon ≤ -179.5))

/-- East-side candidates: the `else if (node.lon >= 179.5)` branch. -/
noncomputable def candidatesPos (nodes : List (String × GNode)) : List GNode :=
  (nodes.map Prod.snd).filter (fun n => !(decide (n.lon ≤ -179.5)) && decide (179.5 ≤ n.lon))

/-- One iteration of the inner best-match loop of `addDatelineBridges`: skip
candidates with `dLat > 0.5`, otherwise keep the running strict minimiser of
`sqrt(dLat² + dLon²)` with `dLon = 360 - (v.lon - u.lon)`.  The accumulator
`none` models the initial `bestV = null / minDist = Infinity`. -/
noncomputable def bestStep (u : GNode) (acc : Option (GNode × ℝ)) (v : GNode) :
    Option (GNode × ℝ) :=
  let dLat := |u.lat - v.lat|
  if 0.5 < dLat then acc
  else
    let dLon := 360 - (v.lon - u.lon)
    let dist := Real.sqrt (dLat * dLat + dLon * dLon)
    match acc with
    | none => some (v, dist)
    | some (bestV, minDist) =>
      if dist < minDist then some (v, dist) else some (bestV, minDist)

/-- The inner loop of `addDatelineBridges` over the east-side candidates. -/
noncomputable def bestMatch (u : GNode) (cands : List GNode) : Option (GNode × ℝ) :=
  cands.foldl (bestStep u) none

/-- The synthetic bridge edge (source `u`, target `v`) built by
`addDatelineBridges`: 0.001 km, straight two-point geometry, no chokepoints,
lane id `DATELINE_BRIDGE_<u>_<v>`. -/
def bridgeEdge (u v : GNode) : Edge :=
  { source := u.id
    target := v.id
    dist_km := 0.001
    geometry := [(u.lon, u.lat), (v.lon, v.lat)]
    chokepoints := []
    lane_id := "DATELINE_BRIDGE_" ++ u.id ++ "_" ++ v.id }

/-- Result of `addDatelineBridges`: the returned counters plus the mutated
adjacency structure. -/
structure DatelineResult where
  bridgesAdded : ℕ
  bridges : List Edge
  adjList : List (String × List Edge)

/-- The per-west-node body of the outer loop of `addDatelineBridges`:
`if (bestV && minDist < 2.0)` add the two directed bridge edges. -/
noncomputable def datelineStep (cPos : List GNode) (acc : DatelineResult) (u : GNode) :
    DatelineResult :=
  match bestMatch u cPos with
  | some (bestV, minDist) =>
    if minDist < 2 then
      let e1 := bridgeEdge u bestV
      let e2 := bridgeEdge bestV u
      { bridgesAdded := acc.bridgesAdded + 2
        bridges := acc.bridges ++ [e1, e2]
        adjList := adjPush (adjPush acc.adjList u.id e1) bestV.id e2 }
    else acc
  | none => acc

/-- Models `addDatelineBridges(nodes, adjList)` of `dateline.ts`. -/
noncomputable def addDatelineBridges (nodes : List (String × GNode))
    (adjList : List (String × List Edge)) : DatelineResult :=
  (candidatesNeg nodes).foldl (datelineStep (candidatesPos nodes))
    ⟨0, [], adjList⟩

/-! ## Graph index (`src/unnamed/part_008`, class `GraphIndex`) -/

/-- Models the fields of the `GraphIndex` class with all collections present
(the state reached by a successful load). -/
structure GraphIndex where
  nodes : List (String × GNode)
  adjList : List (String × List Edge)
  ports : List (String × Port)
  chokepoints : List (String × Chokepoint)
  disabledPorts : List String
  disabledChokepoints : List String

/-- Models `GraphIndex.isEdgeDisabled`: true iff some chokepoint of the edge
is in the disabled set. -/
def isEdgeDisabled (g : GraphIndex) (e : Edge) : Bool :=
  e.chokepoints.any (fun cp => g.disabledChokepoints.contains cp)

/-- Models `GraphIndex.togglePort`: flip membership of the port id in the
disabled-ports set. -/
def togglePort (g : GraphIndex) (portId : String) : GraphIndex :=
  if g.disabledPorts.contains portId then
    { g with disabledPorts := g.disabledPorts.erase portId }
  else
    { g with disabledPorts := g.disabledPorts ++ [portId] }

/-- Models `GraphIndex.toggleChokepoint`. -/
def toggleChokepoint (g : GraphIndex) (name : String) : GraphIndex :=
  if g.disabledChokepoints.contains name then
    { g with disabledChokepoints := g.disabledChokepoints.erase name }
  else
    { g with disabledChokepoints := g.disabledChokepoints ++ [name] }

/-- Raw input payload of `loadFromData` (`GraphData`); each top-level
collection may be absent (`undefined`) in a malformed payload. -/
structure RawGraphData where
  nodes : Option (List (String × GNode))
  edges : Option (List Edge)
  ports : Option (List (String × Port))
  chokepoints : Option (List (String × Chokepoint))

/-- The `GraphIndex` fields as they exist at runtime during `loadFromData`,
where `this.nodes` / `this.ports` / `this.chokepoints` may have been assigned
`undefined` from a malformed payload. -/
structure GraphIndexRaw where
  nodes : Option (List (String × GNode))
  adjList : List (String × List Edge)
  ports : Option (List (String × Port))
  chokepoints : Option (List (String × Chokepoint))
  disabledPorts : List String
  disabledChokepoints : List String

/-- A well-formed index viewed as a raw runtime state. -/
def GraphIndex.toRaw (g : GraphIndex) : GraphIndexRaw :=
  ⟨some g.nodes, g.adjList, some g.ports, some g.chokepoints,
    g.disabledPorts, g.disabledChokepoints⟩

/-- JS falsiness of `port.id` (`undefined` or the empty string). -/
def portIdFalsy (p : Port) : Bool :=
  match p.id with
  | none => true
  | some s => s == ""

/-- Models the id polyfill loop of `loadFromData`:
`if (!port.id) port.id = id`. -/
def polyfillPorts (ps : List (String × Port)) : List (String × Port) :=
  ps.map (fun kp => if portIdFalsy kp.2 then (kp.1, { kp.2 with id := some kp.1 }) else kp)

/-- Models one step of the adjacency build: the edge is pushed onto both its
source and its target entry (creating the entries when absent). -/
def edgeIntoAdj (a : List (String × List Edge)) (e : Edge) : List (String × List Edge) :=
  adjPush (adjPush a e.source e) e.target e

/-- Models the `data.edges.forEach` adjacency build of `loadFromData`
(starting from the fresh `this.adjList = {}`). -/
def buildAdjList (es : List Edge) : List (String × List Edge) :=
  es.foldl edgeIntoAdj []

/-- Models `GraphIndex.loadFromData(data)` of `src/unnamed/part_008`,
including its failure behaviour: an `error` outcome is the JS `TypeError`
thrown by `Object.entries(undefined)` (missing `ports`) or by
`Object.values(undefined)` inside `addDatelineBridges` (missing `nodes`);
the error carries the partially mutated index state at the throw point. -/
noncomputable def loadFromData (g : GraphIndexRaw) (data : RawGraphData) :
    Except GraphIndexRaw GraphIndexRaw :=
  let g1 : GraphIndexRaw :=
    { g with nodes := data.nodes, ports := data.ports, chokepoints := data.chokepoints }
  match data.ports with
  | none => .error g1
  | some ps =>
    let g2 := { g1 with ports := some (polyfillPorts ps) }
    let adj := match data.edges with
      | some es => buildAdjList es
      | none => []
    let g3 := { g2 with adjList := adj }
    match data.nodes with
    | none => .error g3
    | some ns => .ok { g3 with adjList := (addDatelineBridges ns g3.adjList).adjList }

/-! ## Route stitching and interpolation (`src/maritime-twin/src/utils/geo.ts`) -/

/-- Models the append loop of `stitchRouteSegments`:
`for i: if (i === 0 && hv(prevEnd, geometry[0]) <= eps) continue; merged.push(geometry[i])`. -/
noncomputable def stitchAppend (merged1 : List GeoPt) (prevEnd : GeoPt)
    (geometry : List GeoPt) : List GeoPt :=
  match geometry with
  | [] => merged1
  | p0 :: rest =>
    (if haversineDistancePoints prevEnd p0 ≤ 0.01 then merged1 else merged1 ++ [p0]) ++ rest

/-- Models one iteration of the `for (const seg of rawSegments)` loop of
`stitchRouteSegments` (`epsilonKm = 0.01`). -/
noncomputable def stitchStep (startAnchor : Option GeoPt) (merged : List GeoPt)
    (seg : List GeoPt) : List GeoPt :=
  if seg = [] then merged
  else if merged = [] then
    match startAnchor with
    | some anchor =>
      if haversineDistancePoints anchor (seg.getLastD (0, 0)) <
          haversineDistancePoints anchor (seg.headD (0, 0)) then
        merged ++ seg.reverse
      else merged ++ seg
    | none => merged ++ seg
  else
    let prevEnd := merged.getLastD (0, 0)
    let geometry :=
      if haversineDistancePoints prevEnd (seg.getLastD (0, 0)) <
          haversineDistancePoints prevEnd (seg.headD (0, 0)) then seg.reverse else seg
    let nextStart := geometry.headD (0, 0)
    let gapKm := haversineDistancePoints prevEnd nextStart
    let merged1 := if 0.01 < gapKm then merged ++ [nextStart] else merged
    stitchAppend merged1 prevEnd geometry

/-- Models `stitchRouteSegments(rawSegments, startAnchor)` of `geo.ts`. -/
noncomputable def stitchRouteSegments (rawSegments : List (List GeoPt))
    (startAnchor : Option GeoPt) : List (List GeoPt) :=
  let merged := rawSegments.foldl (stitchStep startAnchor) []
  if merged = [] then [] else [merged]

/-- Models the interpolation step of `getPointAlongRoute`, including the
antimeridian shift (`if |lon2-lon1| > 180` shift one end by 360) and the
final `while` renormalisation of the longitude into `[-180, 180]`. -/
noncomputable def interpolateOnSub (p1 p2 : GeoPt) (remaining segDist : ℝ) : GeoPt :=
  let r := remaining / segDist
  let lat := p1.2 + (p2.2 - p1.2) * r
  let lp : ℝ × ℝ :=
    if 180 < |p2.1 - p1.1| then
      (if p1.1 < p2.1 then (p1.1 + 360, p2.1) else (p1.1, p2.1 + 360))
    else (p1.1, p2.1)
  let lon := lp.1 + (lp.2 - lp.1) * r
  (wrapUp (wrapDown lon), lat)

/-- Models the inner point loop of `getPointAlongRoute` over one segment:
either interpolates (`inr point`) or returns the updated covered distance
(`inl covered`).  Zero-length sub-segments (`segDist <= 0`) are skipped. -/
noncomputable def walkSeg (distanceKm : ℝ) : ℝ → List GeoPt → Sum ℝ GeoPt
  | covered, p1 :: p2 :: rest =>
    let segDist := haversineDistance p1.2 p1.1 p2.2 p2.1
    if segDist ≤ 0 then walkSeg distanceKm covered (p2 :: rest)
    else if distanceKm ≤ covered + segDist then
      Sum.inr (interpolateOnSub p1 p2 (distanceKm - covered) segDist)
    else walkSeg distanceKm (covered + segDist) (p2 :: rest)
  | covered, _ => Sum.inl covered

/-- Models the outer segment loop of `getPointAlongRoute`. -/
noncomputable def walkSegs (distanceKm : ℝ) : ℝ → List (List GeoPt) → Option GeoPt
  | _, [] => none
  | covered, seg :: rest =>
    match walkSeg distanceKm covered seg with
    | .inr p => some p
    | .inl c => walkSegs distanceKm c rest

/-- Models `getPointAlongRoute(segments, distanceKm)` of `geo.ts`; `none`
stands for the JS `null` return on an empty segments list as well as for the
`undefined` produced by indexing an empty first/last segment. -/
noncomputable def getPointAlongRoute (segments : List (List GeoPt))
    (distanceKm : ℝ) : Option GeoPt :=
  if segments = [] then none
  else if distanceKm ≤ 0 then (segments.headD []).head?
  else
    match walkSegs distanceKm 0 segments with
    | some p => some p
    | none => (segments.getLastD []).getLast?

/-! ## Priority queue and router
(`src/Front-End/maritime-twin/src/domain/routing/PriorityQueue.ts` and
`src/Front-End/maritime-twin/src/domain/routing/Dijkstra.ts`) -/

/-- Models the `{element, priority}` entries of `PriorityQueue`. -/
structure PQEntry where
  element : String
  priority : ℝ

/-- Models `PriorityQueue.enqueue`: `push` followed by the stable
`sort((a, b) => a.priority - b.priority)`.  On a list that is already sorted
(an invariant of the class: every element was inserted this way) this places
the new entry after all entries of smaller or equal priority. -/
noncomputable def pqInsert (pq : List PQEntry) (x : PQEntry) : List PQEntry :=
  match pq with
  | [] => [x]
  | y :: rest => if y.priority ≤ x.priority then y :: pqInsert rest x else x :: y :: rest

/-- Average ship speed constant `SHIP_SPEED_KM_H = 40.74` of `Dijkstra.ts`. -/
noncomputable def SHIP_SPEED_KM_H : ℝ := 40.74

/-- Models the edge-weight computation inside `findPath`'s relaxation loop:
`edgeWeight = edge.dist_km` plus, for each chokepoint with a truthy positive
penalty (`delayHours && delayHours > 0`), `delayHours * SHIP_SPEED_KM_H`. -/
noncomputable def edgeWeight (delayPenalties : Option (List (String × ℝ))) (e : Edge) : ℝ :=
  match delayPenalties with
  | none => e.dist_km
  | some pens =>
    e.chokepoints.foldl (fun w cp =>
      match aget pens cp with
      | some delayHours =>
        if delayHours ≠ 0 ∧ 0 < delayHours then w + delayHours * SHIP_SPEED_KM_H else w
      | none => w) e.dist_km

/-- Models `const neighborId = edge.source === current ? edge.target : edge.source`. -/
def neighborOf (e : Edge) (u : String) : String :=
  if e.source = u then e.target else e.source

/-- Models the relaxation guard `newDist < (distances[neighborId] || Infinity)`;
note the JS `||`: a stored distance of `0` is falsy and is treated as
`Infinity`, so the comparison passes. -/
noncomputable def relaxPasses (old : Option ℝ) (newDist : ℝ) : Bool :=
  match old with
  | none => true
  | some d => decide (d = 0) || decide (newDist < d)

/-- The router's mutable locals: `distances`, `previous`, the priority queue
and the `visited` set (kept in insertion order). -/
structure DState where
  distances : List (String × ℝ)
  previous : List (String × (String × Edge))
  pq : List PQEntry
  visited : List String

/-- Models the `RouteResult` record returned by the Front-End `findPath`. -/
structure RouteResultFE where
  pathNodeIds : List String
  edges : List Edge
  totalDist : ℝ
  segments : List (List GeoPt)
  geometry : List GeoPt

/-- The result type of the embedded `findPath`.  `crash` is a thrown JS
`TypeError`; `fuelOut` marks exhaustion of the modelling fuel (proved
unreachable below); `noRoute` is the JS `null`. -/
inductive FPOut where
  | crash : FPOut
  | fuelOut : FPOut
  | noRoute : FPOut
  | route : RouteResultFE → FPOut

/-- Models one iteration of the neighbor relaxation loop of `findPath`:
skip disabled edges, skip visited neighbors, apply penalty-weighted
relaxation, and enqueue with the A* heuristic.  The error outcome is the JS
`TypeError` raised by `heuristic` when the neighbor node or the destination
node is not present in `graph.nodes`. -/
noncomputable def relaxEdge (g : GraphIndex) (pen : Option (List (String × ℝ)))
    (endNodeId u : String) (currentDist : ℝ) (s : DState) (e : Edge) :
    Except Unit DState :=
  if isEdgeDisabled g e then .ok s
  else
    let neighborId := neighborOf e u
    if s.visited.contains neighborId then .ok s
    else
      let newDist := currentDist + edgeWeight pen e
      if relaxPasses (aget s.distances neighborId) newDist then
        match aget g.nodes neighborId, aget g.nodes endNodeId with
        | some nN, some eN =>
          .ok ({ distances := aset s.distances neighborId newDist,
                 previous := aset s.previous neighborId (u, e),
                 pq := pqInsert s.pq
                   ⟨neighborId, newDist + nodeHeuristic nN.lat nN.lon eN.lat eN.lon⟩,
                 visited := s.visited } : DState)
        | _, _ => .error ()
      else .ok s

/-- Models the path-reconstruction `while (curr !== startNodeId)` loop of
`findPath`.  One fuel unit per iteration; `none` marks fuel exhaustion
(the concrete fuel passed by `buildRoute` is proved sufficient below). -/
noncomputable def reconWalk (g : GraphIndex) (startNodeId : String)
    (prev : List (String × (String × Edge))) :
    ℕ → String → List (Option GNode) → List Edge →
    Option (List (Option GNode) × List Edge)
  | 0, _, _, _ => none
  | fuel + 1, curr, path, edges =>
    if curr = startNodeId then some (path, edges)
    else
      let path1 := path ++ [aget g.nodes curr]
      match aget prev curr with
      | some (pn, pe) => reconWalk g startNodeId prev fuel pn path1 (edges ++ [pe])
      | none => some (path1, edges)

/-- Models the reconstruction-and-return block of `findPath` (executed when
the destination node is dequeued): walk the `previous` pointers, reverse,
stitch the geometry and build the `RouteResult`.  A `crash` is the JS
`TypeError` from reading `.lon` or `.id` of an unresolvable node. -/
noncomputable def buildRoute (g : GraphIndex) (startNodeId endNodeId : String)
    (s : DState) : FPOut :=
  match reconWalk g startNodeId s.previous
      (s.previous.length + s.visited.length + 2) endNodeId [] [] with
  | none => .fuelOut
  | some (path, edges) =>
    let path2 := path ++ [aget g.nodes startNodeId]
    let orderedPath := path2.reverse
    let orderedEdges := edges.reverse
    match aget g.nodes startNodeId with
    | none => .crash
    | some startNode =>
      if orderedPath.all Option.isSome then
        let segs := stitchRouteSegments (orderedEdges.map Edge.geometry)
          (some (startNode.lon, startNode.lat))
        .route
          { pathNodeIds := orderedPath.map (fun x => (x.getD ⟨"", 0, 0⟩).id)
            edges := orderedEdges
            totalDist := (aget s.distances endNodeId).getD 0
            segments := segs
            geometry := segs.flatten }
      else .crash

/-- Models the `while (!pq.isEmpty())` loop of `findPath`, one fuel unit per
iteration. -/
noncomputable def dijkstraLoop (g : GraphIndex) (pen : Option (List (String × ℝ)))
    (startNodeId endNodeId : String) : ℕ → DState → FPOut
  | 0, _ => .fuelOut
  | fuel + 1, s =>
    match s.pq with
    | [] => .noRoute
    | entry :: pqRest =>
      let s1 : DState := { s with pq := pqRest }
      match aget s.distances entry.element with
      | none => dijkstraLoop g pen startNodeId endNodeId fuel s1
      | some currentDist =>
        if entry.element = endNodeId then buildRoute g startNodeId endNodeId s1
        else if s1.visited.contains entry.element then
          dijkstraLoop g pen startNodeId endNodeId fuel s1
        else
          let s2 : DState := { s1 with visited := s1.visited ++ [entry.element] }
          match ((aget g.adjList entry.element).getD []).foldlM
              (relaxEdge g pen endNodeId entry.element currentDist) s2 with
          | .error _ => .crash
          | .ok s3 => dijkstraLoop g pen startNodeId endNodeId fuel s3

/-- Number of edge references in the adjacency entry of `u`. -/
def degOf (g : GraphIndex) (u : String) : ℕ :=
  ((aget g.adjList u).getD []).length

/-- All node ids that can ever enter the priority queue: the start node and
the endpoints of adjacency edges. -/
def adjEndpoints (g : GraphIndex) : List String :=
  (g.adjList.map (fun kv => (kv.2.map (fun e => [e.source, e.target])).flatten)).flatten

def routerUniverse (g : GraphIndex) (startId : String) : List String :=
  (startId :: adjEndpoints g).dedup

/-- Fuel passed to the main loop; proved sufficient below (the potential
argument: every iteration strictly decreases
`pq.length + Σ_{unvisited u} (deg u + 1)`). -/
def initialFuel (g : GraphIndex) (startId : String) : ℕ :=
  2 + ((routerUniverse g startId).map (fun u => degOf g u + 1)).sum

/-- Models `DijkstraRouter.findPath(startPortId, endPortId, delayPenalties)`
of `src/Front-End/maritime-twin/src/domain/routing/Dijkstra.ts`. -/
noncomputable def findPath (g : GraphIndex) (startPortId endPortId : String)
    (delayPenalties : Option (List (String × ℝ))) : FPOut :=
  if g.disabledPorts.contains startPortId ∨ g.disabledPorts.contains endPortId then
    .noRoute
  else
    match (aget g.ports startPortId).map Port.node_id,
        (aget g.ports endPortId).map Port.node_id with
    | some s, some e =>
      if s = "" ∨ e = "" then .noRoute
      else
        dijkstraLoop g delayPenalties s e (initialFuel g s)
          { distances := [(s, 0)], previous := [], pq := [⟨s, 0⟩], visited := [] }
    | _, _ => .noRoute

/-- State-transformer view of the `findPath` method call: the translation of
every statement of the method only reads `this.graph` (no field of the graph
object is assigned and no mutating method is called on any of its
collections), so the resulting graph state is the input graph. -/
noncomputable def findPathS (g : GraphIndex) (startPortId endPortId : String)
    (delayPenalties : Option (List (String × ℝ))) : FPOut × GraphIndex :=
  (findPath g startPortId endPortId delayPenalties, g)

/-! ## Claim C5: penalty model of the relaxation weight -/

lemma edgeWeight_foldl (pens : List (String × ℝ)) (cps : List String) (init : ℝ) :
    cps.foldl (fun w cp =>
        match aget pens cp with
        | some delayHours =>
          if delayHours ≠ 0 ∧ 0 < delayHours then w + delayHours * SHIP_SPEED_KM_H else w
        | none => w) init
      = init + (cps.map (fun cp =>
          match aget pens cp with
          | some delayHours => if 0 < delayHours then delayHours * SHIP_SPEED_KM_H else 0
          | none => 0)).sum := by
  induction cps generalizing init with
  | nil => simp
  | cons hd tl ih =>
    simp only [List.foldl_cons, List.map_cons, List.sum_cons]
    cases h : aget pens hd with
    | none =>
      dsimp only
      rw [ih]
      ring
    | some dh =>
      dsimp only
      by_cases hp : 0 < dh
      · rw [if_pos ⟨ne_of_gt hp, hp⟩, if_pos hp, ih]
        ring
      · rw [if_neg (fun hc => hp hc.2), if_neg hp, ih]
        ring

/-- Claim C5: during edge relaxation, the traversal weight equals
`edge.dist_km` plus, for each chokepoint name on the edge whose penalty
value is strictly positive, that value (hours) times `SHIP_SPEED_KM_H`
(40.74 km/h); the contributions of the chokepoints sum independently, and
absent or non-positive penalties contribute nothing. -/
theorem C5_relax_weight_is_distance_plus_positive_penalties
    (pen : Option (List (String × ℝ))) (e : Edge) :
    edgeWeight pen e = e.dist_km +
      (e.chokepoints.map (fun cp =>
        match pen.bind (fun pens => aget pens cp) with
        | some delayHours => if 0 < delayHours then delayHours * SHIP_SPEED_KM_H else 0
        | none => 0)).sum ∧
    SHIP_SPEED_KM_H = 40.74 := by
  constructor
  · cases pen with
    | none =>
      simp only [edgeWeight, Option.bind]
      have : (e.chokepoints.map (fun _ => (0 : ℝ))).sum = 0 := by
        induction e.chokepoints with
        | nil => simp
        | cons hd tl ih => simp [ih]
      rw [this]
      ring
    | some pens =>
      simp only [edgeWeight, Option.bind]
      exact edgeWeight_foldl pens e.chokepoints e.dist_km
  · rfl

/-! ## Claim C10: findPath never mutates the graph index -/

/-- Claim C10: the `findPath` method call leaves every field of the
`GraphIndex` unchanged (as a state transformer it returns the input graph
and only produces the route value), while the `togglePort` /
`toggleChokepoint` operations change only their own disabled set and touch
no other field. -/
theorem C10_findPath_graph_frame (g : GraphIndex) (a b : String)
    (pen : Option (List (String × ℝ))) (pid cp : String) :
    ((findPathS g a b pen).2 = g ∧ (findPathS g a b pen).1 = findPath g a b pen) ∧
    ((togglePort g pid).nodes = g.nodes ∧ (togglePort g pid).adjList = g.adjList ∧
      (togglePort g pid).ports = g.ports ∧ (togglePort g pid).chokepoints = g.chokepoints ∧
      (togglePort g pid).disabledChokepoints = g.disabledChokepoints) ∧
    ((toggleChokepoint g cp).nodes = g.nodes ∧ (toggleChokepoint g cp).adjList = g.adjList ∧
      (toggleChokepoint g cp).ports = g.ports ∧
      (toggleChokepoint g cp).chokepoints = g.chokepoints ∧
      (toggleChokepoint g cp).disabledPorts = g.disabledPorts) := by
  refine ⟨⟨rfl, rfl⟩, ⟨?_, ?_, ?_, ?_, ?_⟩, ⟨?_, ?_, ?_, ?_, ?_⟩⟩ <;>
    first
      | (unfold togglePort; split <;> rfl)
      | (unfold toggleChokepoint; split <;> rfl)

/-! ## Claims C3 and C9: dateline bridging -/

/-- The distance formula of the best-match loop, as described by the spec:
`sqrt(dLat² + dLon²)` with `dLon = 360 − (v.lon − u.lon)`. -/
noncomputable def dlDistSpec (u v : GNode) : ℝ :=
  Real.sqrt (|u.lat - v.lat| * |u.lat - v.lat| +
    (360 - (v.lon - u.lon)) * (360 - (v.lon - u.lon)))

/-- The bridge pair contributed by one west-side node: both directed edges
when the best match is strictly below the 2.0-degree threshold, nothing
otherwise. -/
noncomputable def bridgePairFor (cPos : List GNode) (u : GNode) : List Edge :=
  match bestMatch u cPos with
  | some (v, d) => if d < 2 then [bridgeEdge u v, bridgeEdge v u] else []
  | none => []

lemma bestMatch_go (u : GNode) (cands : List GNode) :
    ∀ acc : Option (GNode × ℝ),
    (cands.foldl (bestStep u) acc = none ↔
      (acc = none ∧ ∀ w ∈ cands, 0.5 < |u.lat - w.lat|)) ∧
    (∀ v d, cands.foldl (bestStep u) acc = some (v, d) →
      (∀ v0 d0, acc = some (v0, d0) → d ≤ d0) ∧
      (acc = some (v, d) ∨ (v ∈ cands ∧ |u.lat - v.lat| ≤ 0.5 ∧ d = dlDistSpec u v)) ∧
      (∀ w ∈ cands, |u.lat - w.lat| ≤ 0.5 → d ≤ dlDistSpec u w)) := by
  induction cands with
  | nil =>
    intro acc
    refine ⟨by simp, ?_⟩
    intro v d h
    simp only [List.foldl_nil] at h
    refine ⟨?_, Or.inl h, by simp⟩
    intro v0 d0 h0
    rw [h0] at h
    injection h with h'
    injection h' with h1 h2
    exact le_of_eq h2.symm
  | cons hd tl ih =>
    intro acc
    simp only [List.foldl_cons]
    by_cases hskip : 0.5 < |u.lat - hd.lat|
    · have hstep : bestStep u acc hd = acc := by
        unfold bestStep
        dsimp only
        rw [if_pos hskip]
      rw [hstep]
      obtain ⟨ih1, ih2⟩ := ih acc
      constructor
      · rw [ih1]
        constructor
        · rintro ⟨h1, h2⟩
          exact ⟨h1, by
            intro w hw
            rcases List.mem_cons.mp hw with hw | hw
            · rw [hw]; exact hskip
            · exact h2 w hw⟩
        · rintro ⟨h1, h2⟩
          exact ⟨h1, fun w hw => h2 w (List.mem_cons_of_mem _ hw)⟩
      · intro v d h
        obtain ⟨a1, a2, a3⟩ := ih2 v d h
        refine ⟨a1, ?_, ?_⟩
        · rcases a2 with a2 | ⟨m1, m2, m3⟩
          · exact Or.inl a2
          · exact Or.inr ⟨List.mem_cons_of_mem _ m1, m2, m3⟩
        · intro w hw hwlat
          rcases List.mem_cons.mp hw with hw | hw
          · rw [hw] at hwlat
            exact absurd hwlat (not_le.mpr hskip)
          · exact a3 w hw hwlat
    · have hlat : |u.lat - hd.lat| ≤ 0.5 := not_lt.mp hskip
      have hdist : ∀ acc2, bestStep u acc2 hd =
          match acc2 with
          | none => some (hd, dlDistSpec u hd)
          | some (b, m) =>
            if dlDistSpec u hd < m then some (hd, dlDistSpec u hd) else some (b, m) := by
        intro acc2
        unfold bestStep dlDistSpec
        dsimp only
        rw [if_neg hskip]
      cases acc with
      | none =>
        rw [hdist none]
        obtain ⟨ih1, ih2⟩ := ih (some (hd, dlDistSpec u hd))
        constructor
        · rw [ih1]
          constructor
          · rintro ⟨h, -⟩
            exact absurd h (by simp)
          · rintro ⟨-, hfa⟩
            exact absurd (hfa hd (List.mem_cons_self _ _)) (not_lt.mpr hlat)
        · intro v d h
          obtain ⟨a1, a2, a3⟩ := ih2 v d h
          refine ⟨by intro v0 d0 h0; exact absurd h0 (by simp), ?_, ?_⟩
          · rcases a2 with a2 | ⟨m1, m2, m3⟩
            · injection a2 with a2'
              injection a2' with b1 b2
              exact Or.inr ⟨by rw [← b1]; exact List.mem_cons_self _ _,
                by rw [← b1]; exact hlat, by rw [← b1, ← b2]⟩
            · exact Or.inr ⟨List.mem_cons_of_mem _ m1, m2, m3⟩
          · intro w hw hwlat
            rcases List.mem_cons.mp hw with hw | hw
            · have := a1 hd (dlDistSpec u hd) rfl
              rw [hw]
              exact this
            · exact a3 w hw hwlat
      | some bm =>
        obtain ⟨b, m⟩ := bm
        rw [hdist (some (b, m))]
        dsimp only
        by_cases hlt : dlDistSpec u hd < m
        · rw [if_pos hlt]
          obtain ⟨ih1, ih2⟩ := ih (some (hd, dlDistSpec u hd))
          constructor
          · rw [ih1]
            constructor
            · rintro ⟨h, -⟩
              exact absurd h (by simp)
            · rintro ⟨-, hfa⟩
              exact absurd (hfa hd (List.mem_cons_self _ _)) (not_lt.mpr hlat)
          · intro v d h
            obtain ⟨a1, a2, a3⟩ := ih2 v d h
            have hdm : d ≤ dlDistSpec u hd := a1 hd (dlDistSpec u hd) rfl
            refine ⟨?_, ?_, ?_⟩
            · intro v0 d0 h0
              injection h0 with h0'
              injection h0' with c1 c2
              rw [← c2]
              exact le_of_lt (lt_of_le_of_lt hdm hlt)
            · rcases a2 with a2 | ⟨m1, m2, m3⟩
              · injection a2 with a2'
                injection a2' with b1 b2
                exact Or.inr ⟨by rw [← b1]; exact List.mem_cons_self _ _,
                  by rw [← b1]; exact hlat, by rw [← b1, ← b2]⟩
              · exact Or.inr ⟨List.mem_cons_of_mem _ m1, m2, m3⟩
            · intro w hw hwlat
              rcases List.mem_cons.mp hw with hw | hw
              · rw [hw]
                exact hdm
              · exact a3 w hw hwlat
        · rw [if_neg hlt]
          obtain ⟨ih1, ih2⟩ := ih (some (b, m))
          constructor
          · rw [ih1]
            simp
          · intro v d h
            obtain ⟨a1, a2, a3⟩ := ih2 v d h
            have hdm : d ≤ m := a1 b m rfl
            refine ⟨?_, ?_, ?_⟩
            · intro v0 d0 h0
              injection h0 with h0'
              injection h0' with c1 c2
              rw [← c2]
              exact hdm
            · rcases a2 with a2 | ⟨m1, m2, m3⟩
              · exact Or.inl a2
              · exact Or.inr ⟨List.mem_cons_of_mem _ m1, m2, m3⟩
            · intro w hw hwlat
              rcases List.mem_cons.mp hw with hw | hw
              · rw [hw]
                exact le_trans hdm (not_lt.mp hlt)
              · exact a3 w hw hwlat

lemma aget_adjPush (a : List (String × List Edge)) (k0 : String) (e : Edge) (k : String) :
    aget (adjPush a k0 e) k =
      if k0 = k then some ((aget a k).getD [] ++ [e]) else aget a k := by
  unfold adjPush
  by_cases hk : k0 = k
  · subst hk
    cases h : aget a k0 with
    | some es => simp [aget_aset_same, h]
    | none => simp [aget_aset_same, h]
  · cases h : aget a k0 with
    | some es => simp [hk, aget_aset_other _ _ _ _ hk]
    | none => simp [hk, aget_aset_other _ _ _ _ hk]

lemma dateline_foldl_spec (cPos : List GNode) (cNeg : List GNode) :
    ∀ acc : DatelineResult,
    (cNeg.foldl (datelineStep cPos) acc).bridges
        = acc.bridges ++ cNeg.flatMap (bridgePairFor cPos) ∧
    (cNeg.foldl (datelineStep cPos) acc).adjList
        = (cNeg.flatMap (bridgePairFor cPos)).foldl
            (fun a e => adjPush a e.source e) acc.adjList ∧
    (cNeg.foldl (datelineStep cPos) acc).bridgesAdded
        = acc.bridgesAdded + (cNeg.flatMap (bridgePairFor cPos)).length := by
  induction cNeg with
  | nil => intro acc; simp
  | cons hd tl ih =>
    intro acc
    simp only [List.foldl_cons, List.flatMap_cons]
    have hstep : datelineStep cPos acc hd =
        ⟨acc.bridgesAdded + (bridgePairFor cPos hd).length,
         acc.bridges ++ bridgePairFor cPos hd,
         (bridgePairFor cPos hd).foldl (fun a e => adjPush a e.source e) acc.adjList⟩ := by
      unfold datelineStep bridgePairFor
      cases hbm : bestMatch hd cPos with
      | none => simp
      | some vd =>
        obtain ⟨v, d⟩ := vd
        dsimp only
        by_cases hlt : d < 2
        · rw [if_pos hlt, if_pos hlt]
          simp [bridgeEdge]
        · rw [if_neg hlt, if_neg hlt]
          simp
    rw [hstep]
    obtain ⟨i1, i2, i3⟩ := ih ⟨acc.bridgesAdded + (bridgePairFor cPos hd).length,
      acc.bridges ++ bridgePairFor cPos hd,
      (bridgePairFor cPos hd).foldl (fun a e => adjPush a e.source e) acc.adjList⟩
    refine ⟨?_, ?_, ?_⟩
    · rw [i1]
      simp [List.append_assoc]
    · rw [i2]
      simp [List.foldl_append]
    · rw [i3]
      simp [List.length_append]
      ring

lemma mem_candidatesNeg {ns : List (String × GNode)} {n : GNode} :
    n ∈ candidatesNeg ns ↔ n ∈ ns.map Prod.snd ∧ n.lon ≤ -179.5 := by
  unfold candidatesNeg
  rw [List.mem_filter]
  simp

lemma mem_candidatesPos {ns : List (String × GNode)} {n : GNode} :
    n ∈ candidatesPos ns ↔ n ∈ ns.map Prod.snd ∧ 179.5 ≤ n.lon := by
  unfold candidatesPos
  rw [List.mem_filter]
  simp only [Bool.and_eq_true, Bool.not_eq_true', decide_eq_false_iff_not, decide_eq_true_eq]
  constructor
  · rintro ⟨h1, -, h3⟩
    exact ⟨h1, h3⟩
  · rintro ⟨h1, h2⟩
    exact ⟨h1, by linarith, h2⟩

/-- Claim C3: `addDatelineBridges` collects west-side nodes (`lon ≤ -179.5`)
and east-side nodes (`lon ≥ 179.5`); for each west-side node it picks, among
east-side nodes within 0.5° of latitude, a minimiser of
`sqrt(dLat² + dLon²)` with `dLon = 360 − (eastLon − westLon)`; exactly when
that minimum is strictly below 2.0 it appends the two directed synthetic
edges (one per direction, each onto its source's adjacency entry) with
`dist_km = 0.001`, an empty chokepoint set, and lane id
`DATELINE_BRIDGE_<a>_<b>`; and with no candidates on one side it adds zero
bridges and does not fail. -/
theorem C3_addDatelineBridges_spec (ns : List (String × GNode))
    (adj : List (String × List Edge)) :
    (∀ n, n ∈ candidatesNeg ns ↔ n ∈ ns.map Prod.snd ∧ n.lon ≤ -179.5) ∧
    (∀ n, n ∈ candidatesPos ns ↔ n ∈ ns.map Prod.snd ∧ 179.5 ≤ n.lon) ∧
    (∀ u v d, bestMatch u (candidatesPos ns) = some (v, d) →
      v ∈ candidatesPos ns ∧ |u.lat - v.lat| ≤ 0.5 ∧ d = dlDistSpec u v ∧
      ∀ w ∈ candidatesPos ns, |u.lat - w.lat| ≤ 0.5 → d ≤ dlDistSpec u w) ∧
    (∀ u, bestMatch u (candidatesPos ns) = none ↔
      ∀ w ∈ candidatesPos ns, 0.5 < |u.lat - w.lat|) ∧
    ((addDatelineBridges ns adj).bridges
      = (candidatesNeg ns).flatMap (bridgePairFor (candidatesPos ns))) ∧
    (∀ u v d, bestMatch u (candidatesPos ns) = some (v, d) →
      bridgePairFor (candidatesPos ns) u
        = if d < 2 then [bridgeEdge u v, bridgeEdge v u] else []) ∧
    (∀ u, bestMatch u (candidatesPos ns) = none → bridgePairFor (candidatesPos ns) u = []) ∧
    (∀ u v, (bridgeEdge u v).dist_km = 0.001 ∧ (bridgeEdge u v).chokepoints = [] ∧
      (bridgeEdge u v).source = u.id ∧ (bridgeEdge u v).target = v.id ∧
      (bridgeEdge u v).lane_id = "DATELINE_BRIDGE_" ++ u.id ++ "_" ++ v.id) ∧
    ((addDatelineBridges ns adj).adjList
      = ((candidatesNeg ns).flatMap (bridgePairFor (candidatesPos ns))).foldl
          (fun a e => adjPush a e.source e) adj) ∧
    ((addDatelineBridges ns adj).bridgesAdded
      = ((candidatesNeg ns).flatMap (bridgePairFor (candidatesPos ns))).length) ∧
    (candidatesNeg ns = [] ∨ candidatesPos ns = [] →
      addDatelineBridges ns adj = ⟨0, [], adj⟩) := by
  obtain ⟨f1, f2, f3⟩ :=
    dateline_foldl_spec (candidatesPos ns) (candidatesNeg ns) ⟨0, [], adj⟩
  refine ⟨fun n => mem_candidatesNeg, fun n => mem_candidatesPos, ?_, ?_, ?_, ?_, ?_, ?_, ?_, ?_, ?_⟩
  · intro u v d h
    obtain ⟨-, a2, a3⟩ := (bestMatch_go u (candidatesPos ns) none).2 v d h
    rcases a2 with a2 | ⟨m1, m2, m3⟩
    · exact absurd a2 (by simp)
    · exact ⟨m1, m2, m3, a3⟩
  · intro u
    have := (bestMatch_go u (candidatesPos ns) none).1
    unfold bestMatch
    rw [this]
    simp
  · exact f1
  · intro u v d h
    unfold bridgePairFor
    rw [h]
  · intro u h
    unfold bridgePairFor
    rw [h]
  · intro u v
    exact ⟨rfl, rfl, rfl, rfl, rfl⟩
  · exact f2
  · simpa using f3
  · intro h
    rcases h with h | h
    · unfold addDatelineBridges
      rw [h]
      rfl
    · have hpair : ∀ u, bridgePairFor (candidatesPos ns) u = [] := by
        intro u
        unfold bridgePairFor
        have : bestMatch u (candidatesPos ns) = none := by
          unfold bestMatch
          rw [h]
          rfl
        rw [this]
      have hflat : (candidatesNeg ns).flatMap (bridgePairFor (candidatesPos ns)) = [] := by
        rw [List.flatMap_eq_nil_iff]
        intro u hu
        exact hpair u
      have f1' := f1
      have f2' := f2
      have f3' := f3
      rw [hflat] at f1' f2' f3'
      unfold addDatelineBridges
      cases hres : (candidatesNeg ns).foldl (datelineStep (candidatesPos ns)) ⟨0, [], adj⟩ with
      | mk ba br al =>
        rw [hres] at f1' f2' f3'
        simp only [List.foldl_nil, List.length_nil, List.append_nil, Nat.add_zero] at f1' f2' f3'
        rw [f1', f2', f3']

/-- Claim C9: every synthetic dateline-bridge edge is created with an empty
chokepoint list, so `isEdgeDisabled` returns `false` on it for every state of
the disabled-chokepoint set: no chokepoint blockade can sever a dateline
crossing. -/
theorem C9_bridge_edges_never_disabled (ns : List (String × GNode))
    (adj : List (String × List Edge)) (e : Edge) (g : GraphIndex)
    (he : e ∈ (addDatelineBridges ns adj).bridges) :
    e.chokepoints = [] ∧ isEdgeDisabled g e = false := by
  have hb := (dateline_foldl_spec (candidatesPos ns) (candidatesNeg ns) ⟨0, [], adj⟩).1
  unfold addDatelineBridges at he
  rw [hb] at he
  simp only [List.nil_append] at he
  rw [List.mem_flatMap] at he
  obtain ⟨u, -, hu⟩ := he
  unfold bridgePairFor at hu
  have hck : e.chokepoints = [] := by
    cases hbm : bestMatch u (candidatesPos ns) with
    | none => rw [hbm] at hu; simp at hu
    | some vd =>
      obtain ⟨v, d⟩ := vd
      rw [hbm] at hu
      dsimp only at hu
      by_cases hlt : d < 2
      · rw [if_pos hlt] at hu
        simp only [List.mem_cons, List.not_mem_nil, or_false] at hu
        rcases hu with hu | hu <;> rw [hu] <;> rfl
      · rw [if_neg hlt] at hu
        simp at hu
  refine ⟨hck, ?_⟩
  unfold isEdgeDisabled
  rw [hck]
  rfl

/-- Two concrete near-antimeridian nodes used to exercise the bridging. -/
noncomputable def nodeW : GNode := ⟨"W", 0, -179.9⟩

noncomputable def nodeE : GNode := ⟨"E", 0, 179.9⟩

lemma datelineWE_candNeg : candidatesNeg [("W", nodeW), ("E", nodeE)] = [nodeW] := by
  unfold candidatesNeg
  simp only [List.map_cons, List.map_nil, List.filter_cons, List.filter_nil]
  rw [if_pos (by norm_num [nodeW]), if_neg (by norm_num [nodeE])]

lemma datelineWE_candPos : candidatesPos [("W", nodeW), ("E", nodeE)] = [nodeE] := by
  unfold candidatesPos
  simp only [List.map_cons, List.map_nil, List.filter_cons, List.filter_nil]
  rw [if_neg (by norm_num [nodeW]), if_pos (by norm_num [nodeE])]

lemma datelineWE_bestMatch : bestMatch nodeW [nodeE] = some (nodeE, dlDistSpec nodeW nodeE) := by
  unfold bestMatch bestStep dlDistSpec
  simp only [List.foldl_cons, List.foldl_nil]
  rw [if_neg (by norm_num [nodeW, nodeE])]

lemma datelineWE_dist_lt_two : dlDistSpec nodeW nodeE < 2 := by
  unfold dlDistSpec
  rw [show |nodeW.lat - nodeE.lat| * |nodeW.lat - nodeE.lat| +
      (360 - (nodeE.lon - nodeW.lon)) * (360 - (nodeE.lon - nodeW.lon)) = (0.04 : ℝ) by
    norm_num [nodeW, nodeE]]
  rw [Real.sqrt_lt' (by norm_num : (0:ℝ) < 2)]
  norm_num

lemma datelineWE_bridges :
    (addDatelineBridges [("W", nodeW), ("E", nodeE)] []).bridges
      = [bridgeEdge nodeW nodeE, bridgeEdge nodeE nodeW] := by
  have hb := (dateline_foldl_spec (candidatesPos [("W", nodeW), ("E", nodeE)])
    (candidatesNeg [("W", nodeW), ("E", nodeE)]) ⟨0, [], []⟩).1
  unfold addDatelineBridges
  rw [hb, datelineWE_candNeg, datelineWE_candPos]
  simp only [List.flatMap_cons, List.flatMap_nil, List.nil_append, List.append_nil]
  unfold bridgePairFor
  rw [datelineWE_bestMatch]
  dsimp only
  rw [if_pos datelineWE_dist_lt_two]

/-- Witness for C9 at a concrete bridged pair of nodes and a non-empty
disabled-chokepoint set. -/
theorem C9_bridge_edges_never_disabled_witness :
    bridgeEdge nodeW nodeE ∈ (addDatelineBridges [("W", nodeW), ("E", nodeE)] []).bridges ∧
    (bridgeEdge nodeW nodeE).chokepoints = [] ∧
    isEdgeDisabled ⟨[], [], [], [], [], ["Suez Canal"]⟩ (bridgeEdge nodeW nodeE) = false := by
  have hm : bridgeEdge nodeW nodeE ∈
      (addDatelineBridges [("W", nodeW), ("E", nodeE)] []).bridges := by
    rw [datelineWE_bridges]
    exact List.mem_cons_self _ _
  exact ⟨hm, C9_bridge_edges_never_disabled _ _ _ ⟨[], [], [], [], [], ["Suez Canal"]⟩ hm⟩

/-- Witness for C3: instantiating the theorem at the concrete two-node graph
produces exactly the two directed bridge edges with the documented shape. -/
theorem C3_addDatelineBridges_spec_witness :
    (addDatelineBridges [("W", nodeW), ("E", nodeE)] []).bridges
      = [bridgeEdge nodeW nodeE, bridgeEdge nodeE nodeW] ∧
    (bridgeEdge nodeW nodeE).dist_km = 0.001 ∧
    (bridgeEdge nodeW nodeE).chokepoints = [] ∧
    (bridgeEdge nodeW nodeE).lane_id = "DATELINE_BRIDGE_" ++ "W" ++ "_" ++ "E" := by
  have h := C3_addDatelineBridges_spec [("W", nodeW), ("E", nodeE)] []
  obtain ⟨-, -, -, -, h5, h6, -, h8, -⟩ := h
  refine ⟨?_, (h8 nodeW nodeE).1, (h8 nodeW nodeE).2.1, ?_⟩
  · rw [h5, datelineWE_candNeg]
    simp only [List.flatMap_cons, List.flatMap_nil, List.append_nil]
    rw [h6 nodeW nodeE (dlDistSpec nodeW nodeE)
      (by rw [datelineWE_candPos]; exact datelineWE_bestMatch)]
    rw [if_pos datelineWE_dist_lt_two]
  · have := (h8 nodeW nodeE).2.2.2.2
    rw [this]
    rfl

/-! ## Claim C6: graph loading failure behaviour -/

/-- Counterexample to claim C6: loading a payload that lacks `nodes` does
fail, but the failure is an untyped JS `TypeError` (no `GraphLoadError`
exists anywhere in the repository) and it does NOT leave the previously
loaded index unchanged: at the throw point `this.nodes` has already been
overwritten with `undefined` and the ports/chokepoints/adjacency fields have
been replaced from the new payload. -/
theorem C6_load_missing_nodes_mutates_index :
    ∃ gErr, loadFromData (GraphIndex.toRaw ⟨[("N1", ⟨"N1", 1, 2⟩)], [], [], [], [], []⟩)
        ⟨none, some [], some [], some []⟩ = .error gErr ∧
      gErr.nodes = none ∧
      (GraphIndex.toRaw ⟨[("N1", ⟨"N1", 1, 2⟩)], [], [], [], [], []⟩).nodes
        = some [("N1", ⟨"N1", 1, 2⟩)] ∧
      gErr ≠ GraphIndex.toRaw ⟨[("N1", ⟨"N1", 1, 2⟩)], [], [], [], [], []⟩ := by
  refine ⟨⟨none, [], some [], some [], [], []⟩, rfl, rfl, rfl, ?_⟩
  intro h
  have : (⟨none, [], some [], some [], [], []⟩ : GraphIndexRaw).nodes
      = (GraphIndex.toRaw ⟨[("N1", ⟨"N1", 1, 2⟩)], [], [], [], [], []⟩).nodes := by
    rw [h]
  simp [GraphIndex.toRaw] at this

/-- Amended claim C6: `loadFromData` fails (with a JS `TypeError`; the
repository defines no `GraphLoadError`) whenever the payload lacks `nodes`
or lacks `ports`; a payload with a missing `edges` array is accepted and
produces an adjacency that is empty before dateline bridging; and in every
failing case the index is NOT left unchanged: its `nodes`, `ports` and
`chokepoints` fields have already been overwritten from the payload when the
failure occurs. -/
theorem C6_loadFromData_failure_behaviour (g : GraphIndexRaw) (data : RawGraphData) :
    (data.nodes = none → ∃ gErr, loadFromData g data = .error gErr) ∧
    (data.ports = none →
      loadFromData g data = .error
        { g with nodes := data.nodes, ports := none, chokepoints := data.chokepoints }) ∧
    (∀ ns ps cps, data = ⟨some ns, none, some ps, some cps⟩ →
      ∃ gOk, loadFromData g data = .ok gOk ∧
        gOk.adjList = (addDatelineBridges ns []).adjList ∧
        gOk.nodes = some ns ∧ gOk.ports = some (polyfillPorts ps)) ∧
    (∀ gErr, loadFromData g data = .error gErr →
      gErr.nodes = data.nodes ∧ gErr.chokepoints = data.chokepoints) := by
  refine ⟨?_, ?_, ?_, ?_⟩
  · intro hn
    unfold loadFromData
    cases hp : data.ports with
    | none => exact ⟨_, rfl⟩
    | some ps =>
      dsimp only
      rw [hn]
      exact ⟨_, rfl⟩
  · intro hp
    unfold loadFromData
    rw [hp]
  · intro ns ps cps hdata
    subst hdata
    unfold loadFromData
    dsimp only
    exact ⟨_, rfl, rfl, rfl, rfl⟩
  · intro gErr herr
    unfold loadFromData at herr
    cases hp : data.ports with
    | none =>
      rw [hp] at herr
      dsimp only at herr
      injection herr with h
      rw [← h]
      exact ⟨rfl, rfl⟩
    | some ps =>
      rw [hp] at herr
      dsimp only at herr
      cases hn : data.nodes with
      | none =>
        rw [hn] at herr
        dsimp only at herr
        injection herr with h
        rw [← h]
        exact ⟨rfl, rfl⟩
      | some ns =>
        rw [hn] at herr
        dsimp only at herr
        exact absurd herr (by simp)

/-- Witness for the amended C6 at concrete payloads: a payload lacking only
`edges` loads successfully with an empty (pre-bridge) adjacency, and a
payload lacking `nodes` fails. -/
theorem C6_loadFromData_failure_behaviour_witness :
    (∃ gOk, loadFromData (GraphIndex.toRaw ⟨[], [], [], [], [], []⟩)
        ⟨some [("N1", ⟨"N1", 1, 2⟩)], none, some [], some []⟩ = .ok gOk ∧
      gOk.adjList = (addDatelineBridges [("N1", ⟨"N1", 1, 2⟩)] []).adjList ∧
      gOk.nodes = some [("N1", ⟨"N1", 1, 2⟩)] ∧ gOk.ports = some (polyfillPorts [])) ∧
    (∃ gErr, loadFromData (GraphIndex.toRaw ⟨[], [], [], [], [], []⟩)
        ⟨none, some [], some [], some []⟩ = .error gErr) := by
  constructor
  · exact (C6_loadFromData_failure_behaviour (GraphIndex.toRaw ⟨[], [], [], [], [], []⟩)
      ⟨some [("N1", ⟨"N1", 1, 2⟩)], none, some [], some []⟩).2.2.1 _ _ _ rfl
  · exact (C6_loadFromData_failure_behaviour (GraphIndex.toRaw ⟨[], [], [], [], [], []⟩)
      ⟨none, some [], some [], some []⟩).1 rfl

/-! ## Claim C7: stitching orientation and gap handling -/

/-- Spec-side description of one stitching step for a non-empty accumulated
polyline and a non-empty segment: the segment is reversed exactly when the
distance from the previous accumulated endpoint to its last point is
strictly smaller than the distance to its first point; then, if the gap to
the oriented start exceeds the 10-metre epsilon, a connecting point equal to
that start is inserted before the segment's points; if the gap is within the
epsilon, the duplicate start point is dropped and only the remaining points
are appended. -/
noncomputable def stitchStepSpec (merged seg : List GeoPt) : List GeoPt :=
  let prevEnd := merged.getLastD (0, 0)
  let geometry :=
    if haversineDistancePoints prevEnd (seg.getLastD (0, 0)) <
        haversineDistancePoints prevEnd (seg.headD (0, 0)) then seg.reverse else seg
  if 0.01 < haversineDistancePoints prevEnd (geometry.headD (0, 0)) then
    merged ++ geometry.headD (0, 0) :: geometry
  else merged ++ geometry.tail

/-- Spec-side orientation of the first segment toward the start anchor. -/
noncomputable def stitchFirstSpec (anchor : GeoPt) (seg : List GeoPt) : List GeoPt :=
  if haversineDistancePoints anchor (seg.getLastD (0, 0)) <
      haversineDistancePoints anchor (seg.headD (0, 0)) then seg.reverse else seg

lemma stitchStep_eq_spec (anchor : Option GeoPt) (merged seg : List GeoPt)
    (hm : merged ≠ []) (hs : seg ≠ []) :
    stitchStep anchor merged seg = stitchStepSpec merged seg := by
  unfold stitchStep stitchStepSpec
  rw [if_neg hs, if_neg hm]
  dsimp only
  set prevEnd := merged.getLastD (0, 0) with hprev
  set geometry :=
    (if haversineDistancePoints prevEnd (seg.getLastD (0, 0)) <
        haversineDistancePoints prevEnd (seg.headD (0, 0)) then seg.reverse else seg) with hgeo
  have hgne : geometry ≠ [] := by
    rw [hgeo]
    split
    · simpa using hs
    · exact hs
  obtain ⟨p0, rest, hps⟩ := List.exists_cons_of_ne_nil hgne
  rw [hps]
  unfold stitchAppend
  simp only [List.headD_cons]
  by_cases hgap : 0.01 < haversineDistancePoints prevEnd p0
  · rw [if_pos hgap, if_pos hgap, if_neg (not_le.mpr hgap)]
    simp
  · rw [if_neg hgap, if_neg hgap, if_pos (not_lt.mp hgap)]
    simp

lemma stitchStepSpec_ne_nil (merged seg : List GeoPt) (hm : merged ≠ []) :
    stitchStepSpec merged seg ≠ [] := by
  unfold stitchStepSpec
  dsimp only
  split
  · split <;> simp [hm]
  · split <;> simp [hm]

lemma stitch_fold_spec (anchor : GeoPt) (rest : List (List GeoPt)) :
    ∀ acc : List GeoPt, acc ≠ [] → (∀ s ∈ rest, s ≠ []) →
    rest.foldl (stitchStep (some anchor)) acc = rest.foldl stitchStepSpec acc ∧
    rest.foldl stitchStepSpec acc ≠ [] := by
  induction rest with
  | nil => intro acc ha _; exact ⟨rfl, ha⟩
  | cons hd tl ih =>
    intro acc ha hall
    have hhd : hd ≠ [] := hall hd (List.mem_cons_self _ _)
    have hstep := stitchStep_eq_spec (some anchor) acc hd ha hhd
    have hne := stitchStepSpec_ne_nil acc hd ha
    simp only [List.foldl_cons, hstep]
    exact ih (stitchStepSpec acc hd) hne (fun s hster => hall s (List.mem_cons_of_mem _ hster))

/-- Claim C7: in `stitchRouteSegments`, for every non-empty list of
non-empty edge geometries, each segment after the first is reversed exactly
when the previous accumulated endpoint is strictly closer to the segment's
last point than to its first point; after orienting, a connecting point
equal to the oriented start is inserted exactly when the gap exceeds the
10-metre epsilon, and the duplicate start point is dropped (only the tail
appended) exactly when the gap is within the epsilon — as captured by
`stitchStepSpec` — while the first segment is oriented toward the start
anchor. -/
theorem C7_stitch_flip_and_gap_behaviour (rawSegments : List (List GeoPt))
    (anchor : GeoPt) (hall : ∀ s ∈ rawSegments, s ≠ []) (hne : rawSegments ≠ []) :
    (∀ merged seg, merged ≠ [] → seg ≠ [] →
      stitchStep (some anchor) merged seg = stitchStepSpec merged seg) ∧
    stitchRouteSegments rawSegments (some anchor) =
      [rawSegments.tail.foldl stitchStepSpec
        (stitchFirstSpec anchor (rawSegments.headD []))] := by
  refine ⟨fun merged seg hm hs => stitchStep_eq_spec (some anchor) merged seg hm hs, ?_⟩
  obtain ⟨s0, rest, hsplit⟩ := List.exists_cons_of_ne_nil hne
  subst hsplit
  have hs0 : s0 ≠ [] := hall s0 (List.mem_cons_self _ _)
  have hfirst : stitchStep (some anchor) [] s0 = stitchFirstSpec anchor s0 := by
    unfold stitchStep stitchFirstSpec
    rw [if_neg hs0, if_pos rfl]
    simp
  have hfne : stitchFirstSpec anchor s0 ≠ [] := by
    unfold stitchFirstSpec
    split
    · simpa using hs0
    · exact hs0
  obtain ⟨hfold, hnil⟩ := stitch_fold_spec anchor rest (stitchFirstSpec anchor s0) hfne
    (fun s hs => hall s (List.mem_cons_of_mem _ hs))
  unfold stitchRouteSegments
  simp only [List.foldl_cons, hfirst, hfold]
  rw [if_neg hnil]
  simp

/-- Witness for C7 at a concrete two-segment route (all points coincide, so
every haversine comparison is settled by `haversineDistancePoints_self`). -/
theorem C7_stitch_flip_and_gap_behaviour_witness :
    ([[((0 : ℝ), (0 : ℝ))], [((0 : ℝ), (0 : ℝ))]] : List (List GeoPt)) ≠ [] ∧
    stitchRouteSegments [[((0 : ℝ), (0 : ℝ))], [((0 : ℝ), (0 : ℝ))]] (some ((0 : ℝ), (0 : ℝ)))
      = [[((0 : ℝ), (0 : ℝ))]] := by
  refine ⟨by simp, ?_⟩
  have hall : ∀ s ∈ ([[((0 : ℝ), (0 : ℝ))], [((0 : ℝ), (0 : ℝ))]] : List (List GeoPt)), s ≠ [] := by
    intro s hs
    simp only [List.mem_cons, List.not_mem_nil, or_false] at hs
    rcases hs with rfl | rfl <;> simp
  have h := (C7_stitch_flip_and_gap_behaviour
    [[((0 : ℝ), (0 : ℝ))], [((0 : ℝ), (0 : ℝ))]] ((0 : ℝ), (0 : ℝ)) hall (by simp)).2
  rw [h]
  have e1 : ([((0 : ℝ), (0 : ℝ))] : List GeoPt).getLastD (0, 0) = ((0 : ℝ), (0 : ℝ)) := rfl
  have e2 : ([((0 : ℝ), (0 : ℝ))] : List GeoPt).headD (0, 0) = ((0 : ℝ), (0 : ℝ)) := rfl
  have hfirst : stitchFirstSpec ((0 : ℝ), (0 : ℝ)) [((0 : ℝ), (0 : ℝ))] = [((0 : ℝ), (0 : ℝ))] := by
    unfold stitchFirstSpec
    simp only [e1, e2, haversineDistancePoints_self]
    rw [if_neg (lt_irrefl _)]
  have hstep : stitchStepSpec [((0 : ℝ), (0 : ℝ))] [((0 : ℝ), (0 : ℝ))] = [((0 : ℝ), (0 : ℝ))] := by
    unfold stitchStepSpec
    dsimp only
    simp only [e1, e2, haversineDistancePoints_self]
    rw [if_neg (lt_irrefl _)]
    simp only [List.headD_cons, haversineDistancePoints_self]
    rw [if_neg (by norm_num)]
    simp
  simp only [List.tail_cons, List.headD_cons, List.foldl_cons, List.foldl_nil, hfirst, hstep]

/-! ## Claim C8: getPointAlongRoute boundary behaviour -/

/-- Haversine length of one polyline (sum over consecutive point pairs). -/
noncomputable def segLength : List GeoPt → ℝ
  | p1 :: p2 :: rest => haversineDistance p1.2 p1.1 p2.2 p2.1 + segLength (p2 :: rest)
  | _ => 0

/-- Total accumulated route length of a segments list, as walked by
`getPointAlongRoute` (distances between consecutive points within each
segment; no distance is accumulated between segments). -/
noncomputable def routeTotalLength (segments : List (List GeoPt)) : ℝ :=
  (segments.map segLength).sum

lemma segLength_nil : segLength [] = 0 := rfl

lemma segLength_single (p : GeoPt) : segLength [p] = 0 := rfl

lemma segLength_cons2 (p1 p2 : GeoPt) (rest : List GeoPt) :
    segLength (p1 :: p2 :: rest) =
      haversineDistance p1.2 p1.1 p2.2 p2.1 + segLength (p2 :: rest) := rfl

lemma segLength_nonneg (seg : List GeoPt) : 0 ≤ segLength seg := by
  induction seg with
  | nil => rw [segLength_nil]
  | cons p tl ih =>
    cases tl with
    | nil => rw [segLength_single]
    | cons p2 rest =>
      rw [segLength_cons2]
      have := haversineDistance_nonneg p.2 p.1 p2.2 p2.1
      have h2 := ih
      linarith

lemma routeTotalLength_nonneg (segments : List (List GeoPt)) :
    0 ≤ routeTotalLength segments := by
  unfold routeTotalLength
  induction segments with
  | nil => simp
  | cons hd tl ih =>
    simp only [List.map_cons, List.sum_cons]
    have := segLength_nonneg hd
    linarith

lemma walkSeg_nil (d c : ℝ) : walkSeg d c [] = Sum.inl c := rfl

lemma walkSeg_single (d c : ℝ) (p : GeoPt) : walkSeg d c [p] = Sum.inl c := rfl

lemma walkSeg_cons2 (d c : ℝ) (p1 p2 : GeoPt) (rest : List GeoPt) :
    walkSeg d c (p1 :: p2 :: rest) =
      (let segDist := haversineDistance p1.2 p1.1 p2.2 p2.1
       if segDist ≤ 0 then walkSeg d c (p2 :: rest)
       else if d ≤ c + segDist then
         Sum.inr (interpolateOnSub p1 p2 (d - c) segDist)
       else walkSeg d (c + segDist) (p2 :: rest)) := rfl

/-- When the target distance strictly exceeds the covered distance plus the
segment's length, the inner walk never interpolates and reports the updated
covered distance. -/
lemma walkSeg_no_hit (d : ℝ) :
    ∀ (seg : List GeoPt) (c : ℝ), c + segLength seg < d →
      walkSeg d c seg = Sum.inl (c + segLength seg) := by
  intro seg
  induction seg with
  | nil => intro c h; rw [walkSeg_nil, segLength_nil, add_zero]
  | cons p1 tl ih =>
    intro c h
    cases tl with
    | nil => rw [walkSeg_single, segLength_single, add_zero]
    | cons p2 rest =>
      rw [walkSeg_cons2]
      rw [segLength_cons2] at h
      dsimp only
      by_cases hz : haversineDistance p1.2 p1.1 p2.2 p2.1 ≤ 0
      · have hz0 : haversineDistance p1.2 p1.1 p2.2 p2.1 = 0 :=
          le_antisymm hz (haversineDistance_nonneg _ _ _ _)
        rw [if_pos hz]
        have h' : c + segLength (p2 :: rest) < d := by rw [hz0] at h; linarith
        rw [ih c h', segLength_cons2, hz0]
        norm_num
      · rw [if_neg hz]
        have hrest := segLength_nonneg (p2 :: rest)
        have hlt : ¬ d ≤ c + haversineDistance p1.2 p1.1 p2.2 p2.1 := by
          push_neg
          linarith
        rw [if_neg hlt]
        have h' : (c + haversineDistance p1.2 p1.1 p2.2 p2.1) + segLength (p2 :: rest) < d := by
          linarith
        rw [ih _ h']
        rw [segLength_cons2]
        congr 1
        ring

lemma walkSegs_nil (d c : ℝ) : walkSegs d c [] = none := rfl

lemma walkSegs_cons (d c : ℝ) (seg : List GeoPt) (rest : List (List GeoPt)) :
    walkSegs d c (seg :: rest) =
      (match walkSeg d c seg with
       | .inr p => some p
       | .inl c2 => walkSegs d c2 rest) := rfl

/-- When the target distance strictly exceeds the total route length, the
outer walk falls through every segment. -/
lemma walkSegs_no_hit (d : ℝ) :
    ∀ (segments : List (List GeoPt)) (c : ℝ),
      c + (segments.map segLength).sum < d → walkSegs d c segments = none := by
  intro segments
  induction segments with
  | nil => intro c h; rw [walkSegs_nil]
  | cons seg rest ih =>
    intro c h
    simp only [List.map_cons, List.sum_cons] at h
    have h1 : c + segLength seg < d := by
      have := (List.sum_nonneg (l := rest.map segLength) (by
        intro x hx
        obtain ⟨s, hs, rfl⟩ := List.mem_map.mp hx
        exact segLength_nonneg s))
      linarith
    rw [walkSegs_cons, walkSeg_no_hit d seg c h1]
    exact ih (c + segLength seg) (by linarith)

lemma head?_of_ne_nil {l : List GeoPt} (z : GeoPt) (h : l ≠ []) :
    l.head? = some (l.headD z) := by
  cases l with
  | nil => exact absurd rfl h
  | cons x xs => rfl

lemma getLast?_of_ne_nil {l : List GeoPt} (z : GeoPt) (h : l ≠ []) :
    l.getLast? = some (l.getLastD z) := by
  induction l generalizing z with
  | nil => exact absurd rfl h
  | cons x xs ih =>
    cases xs with
    | nil => rfl
    | cons y ys =>
      rw [List.getLast?_cons_cons, List.getLastD_cons]
      exact ih x (by simp)

lemma getLastD_append_cons (L : List GeoPt) (s2 : List (List GeoPt)) :
    ∀ (s1 : List (List GeoPt)) (z : List GeoPt),
      (s1 ++ L :: s2).getLastD z = s2.getLastD L := by
  intro s1
  induction s1 with
  | nil => intro z; rw [List.nil_append, List.getLastD_cons]
  | cons x s1 ih =>
    intro z
    rw [List.cons_append, List.getLastD_cons]
    exact ih x

lemma getLastD_congr {s : List (List GeoPt)} (h : s ≠ []) (x y : List GeoPt) :
    s.getLastD x = s.getLastD y := by
  cases s with
  | nil => exact absurd rfl h
  | cons a l => rw [List.getLastD_cons, List.getLastD_cons]

lemma head?_dup (p : GeoPt) (b : List GeoPt) (a : List GeoPt) :
    (a ++ p :: p :: b).head? = (a ++ p :: b).head? := by
  cases a <;> rfl

lemma getLast?_dup (p : GeoPt) (b : List GeoPt) (a : List GeoPt) :
    (a ++ p :: p :: b).getLast? = (a ++ p :: b).getLast? := by
  have h3 : (p :: p :: b).getLast? = (p :: b).getLast? := by
    cases b with
    | nil => rfl
    | cons y ys => rw [List.getLast?_cons_cons]
  rw [List.getLast?_append, List.getLast?_append, h3]

/-- Inserting a duplicate consecutive point into a segment does not change
the inner walk: the zero-length sub-segment is skipped. -/
lemma walkSeg_dup (d : ℝ) (p : GeoPt) (b : List GeoPt) :
    ∀ (a : List GeoPt) (c : ℝ),
      walkSeg d c (a ++ p :: p :: b) = walkSeg d c (a ++ p :: b) := by
  intro a
  induction a with
  | nil =>
    intro c
    simp only [List.nil_append]
    rw [walkSeg_cons2]
    dsimp only
    rw [if_pos (le_of_eq (haversineDistance_self p.2 p.1))]
  | cons x a2 ih =>
    intro c
    cases a2 with
    | nil =>
      simp only [List.cons_append, List.nil_append]
      rw [walkSeg_cons2 d c x p (p :: b), walkSeg_cons2 d c x p b]
      dsimp only
      by_cases h1 : haversineDistance x.2 x.1 p.2 p.1 ≤ 0
      · rw [if_pos h1, if_pos h1]
        simpa using ih c
      · rw [if_neg h1, if_neg h1]
        by_cases h2 : d ≤ c + haversineDistance x.2 x.1 p.2 p.1
        · rw [if_pos h2, if_pos h2]
        · rw [if_neg h2, if_neg h2]
          simpa using ih (c + haversineDistance x.2 x.1 p.2 p.1)
    | cons w ws =>
      simp only [List.cons_append]
      rw [walkSeg_cons2 d c x w (ws ++ p :: p :: b), walkSeg_cons2 d c x w (ws ++ p :: b)]
      dsimp only
      by_cases h1 : haversineDistance x.2 x.1 w.2 w.1 ≤ 0
      · rw [if_pos h1, if_pos h1]
        simpa using ih c
      · rw [if_neg h1, if_neg h1]
        by_cases h2 : d ≤ c + haversineDistance x.2 x.1 w.2 w.1
        · rw [if_pos h2, if_pos h2]
        · rw [if_neg h2, if_neg h2]
          simpa using ih (c + haversineDistance x.2 x.1 w.2 w.1)

/-- Inserting a duplicate consecutive point anywhere in a segments list does
not change the outer walk. -/
lemma walkSegs_dup (d : ℝ) (p : GeoPt) (b a : List GeoPt) (s2 : List (List GeoPt)) :
    ∀ (s1 : List (List GeoPt)) (c : ℝ),
      walkSegs d c (s1 ++ (a ++ p :: p :: b) :: s2)
        = walkSegs d c (s1 ++ (a ++ p :: b) :: s2) := by
  intro s1
  induction s1 with
  | nil =>
    intro c
    simp only [List.nil_append]
    rw [walkSegs_cons, walkSegs_cons, walkSeg_dup]
  | cons hd tl ih =>
    intro c
    simp only [List.cons_append]
    rw [walkSegs_cons, walkSegs_cons]
    cases hw : walkSeg d c hd with
    | inl c2 =>
      dsimp only
      exact ih c2
    | inr q => rfl

/-- Counterexample to claim C8 as stated: (i) on a two-segment route of
isolated points the total accumulated length is `0`, so `distanceKm = 0`
both "meets the total" (the claim then demands the last point of the last
segment) and satisfies `distanceKm <= 0` (the claim then demands the first
point of the first segment); the code returns the first point, so the
clamp-to-last clause fails when the distance merely meets the total;
(ii) the list `[[]]` is a non-empty segments list for which the function
yields no point, contradicting "returns null only for an empty segments
list". -/
theorem C8_counterexample_meets_total_and_empty_segment :
    routeTotalLength [[((0 : ℝ), (0 : ℝ))], [((1 : ℝ), (1 : ℝ))]] = 0 ∧
    getPointAlongRoute [[((0 : ℝ), (0 : ℝ))], [((1 : ℝ), (1 : ℝ))]] 0
      = some ((0 : ℝ), (0 : ℝ)) ∧
    (some ((0 : ℝ), (0 : ℝ)) : Option GeoPt) ≠ some ((1 : ℝ), (1 : ℝ)) ∧
    getPointAlongRoute [([] : List GeoPt)] 1 = none ∧
    ([([] : List GeoPt)] : List (List GeoPt)) ≠ [] := by
  refine ⟨?_, ?_, ?_, ?_, by simp⟩
  · unfold routeTotalLength
    simp [segLength_single]
  · unfold getPointAlongRoute
    rw [if_neg (by simp), if_pos le_rfl]
    rfl
  · intro h
    injection h with h2
    rw [Prod.ext_iff] at h2
    exact absurd h2.1 (by norm_num)
  · unfold getPointAlongRoute
    rw [if_neg (by simp), if_neg (by norm_num)]
    rw [walkSegs_cons, walkSeg_nil]
    rfl

/-- Amended claim C8: for every segments list whose first and last segments
are non-empty, `getPointAlongRoute` returns the first point of the first
segment whenever `distanceKm ≤ 0`; returns the last point of the last
segment (clamped, never extrapolated) whenever `distanceKm` STRICTLY
exceeds the total accumulated route length; always returns a point (`none`
only arises from an empty list or an empty boundary segment); and skips
zero-length sub-segments between duplicate consecutive points without
changing the result. -/
theorem C8_getPointAlongRoute_boundaries (segments : List (List GeoPt)) (d : ℝ)
    (hne : segments ≠ []) (hfirst : segments.headD [] ≠ [])
    (hlast : segments.getLastD [] ≠ []) :
    (d ≤ 0 → getPointAlongRoute segments d = some ((segments.headD []).headD (0, 0))) ∧
    (routeTotalLength segments < d →
      getPointAlongRoute segments d = some ((segments.getLastD []).getLastD (0, 0))) ∧
    (getPointAlongRoute segments d).isSome = true ∧
    (∀ (s1 : List (List GeoPt)) (a : List GeoPt) (p : GeoPt) (b : List GeoPt)
        (s2 : List (List GeoPt)),
      segments = s1 ++ (a ++ p :: p :: b) :: s2 →
      getPointAlongRoute segments d = getPointAlongRoute (s1 ++ (a ++ p :: b) :: s2) d) := by
  have hclamp : routeTotalLength segments < d →
      getPointAlongRoute segments d = some ((segments.getLastD []).getLastD (0, 0)) := by
    intro hlt
    have hd0 : ¬ d ≤ 0 := not_le.mpr (lt_of_le_of_lt (routeTotalLength_nonneg segments) hlt)
    unfold getPointAlongRoute
    rw [if_neg hne, if_neg hd0]
    have hw : walkSegs d 0 segments = none := by
      apply walkSegs_no_hit
      unfold routeTotalLength at hlt
      linarith
    rw [hw]
    exact getLast?_of_ne_nil _ hlast
  have hstart : d ≤ 0 →
      getPointAlongRoute segments d = some ((segments.headD []).headD (0, 0)) := by
    intro hd
    unfold getPointAlongRoute
    rw [if_neg hne, if_pos hd]
    exact head?_of_ne_nil _ hfirst
  refine ⟨hstart, hclamp, ?_, ?_⟩
  · by_cases hd : d ≤ 0
    · rw [hstart hd]
      rfl
    · unfold getPointAlongRoute
      rw [if_neg hne, if_neg hd]
      cases hw : walkSegs d 0 segments with
      | some q => rfl
      | none =>
        rw [getLast?_of_ne_nil (0, 0) hlast]
        rfl
  · intro s1 a p b s2 hseg
    subst hseg
    have hne2 : s1 ++ (a ++ p :: b) :: s2 ≠ [] := by simp
    unfold getPointAlongRoute
    rw [if_neg hne, if_neg hne2]
    by_cases hd : d ≤ 0
    · rw [if_pos hd, if_pos hd]
      cases s1 with
      | nil =>
        simp only [List.nil_append, List.headD_cons]
        exact congrArg id (head?_dup p b a)
      | cons x s1 =>
        simp only [List.cons_append, List.headD_cons]
    · rw [if_neg hd, if_neg hd]
      rw [walkSegs_dup d p b a s2 s1 0]
      cases hw : walkSegs d 0 (s1 ++ (a ++ p :: b) :: s2) with
      | some q => rfl
      | none =>
        dsimp only
        rw [getLastD_append_cons (a ++ p :: p :: b) s2 s1,
          getLastD_append_cons (a ++ p :: b) s2 s1]
        cases s2 with
        | nil =>
          simp only [List.getLastD_nil]
          exact getLast?_dup p b a
        | cons y ys =>
          rw [List.getLastD_cons, List.getLastD_cons]

/-- Witness for the amended C8 at a concrete route: with total length `0`,
a distance of `1` strictly exceeds the total and clamps to the final point,
while a distance of `-1` returns the first point. -/
theorem C8_getPointAlongRoute_boundaries_witness :
    routeTotalLength [[((0 : ℝ), (0 : ℝ))], [((1 : ℝ), (1 : ℝ))]] < 1 ∧
    getPointAlongRoute [[((0 : ℝ), (0 : ℝ))], [((1 : ℝ), (1 : ℝ))]] 1
      = some ((1 : ℝ), (1 : ℝ)) ∧
    getPointAlongRoute [[((0 : ℝ), (0 : ℝ))], [((1 : ℝ), (1 : ℝ))]] (-1)
      = some ((0 : ℝ), (0 : ℝ)) := by
  have htot : routeTotalLength [[((0 : ℝ), (0 : ℝ))], [((1 : ℝ), (1 : ℝ))]] = 0 := by
    unfold routeTotalLength
    simp [segLength_single]
  have h1 := (C8_getPointAlongRoute_boundaries
    [[((0 : ℝ), (0 : ℝ))], [((1 : ℝ), (1 : ℝ))]] 1 (by simp) (by simp) (by simp)).2.1
    (by rw [htot]; norm_num)
  have h2 := (C8_getPointAlongRoute_boundaries
    [[((0 : ℝ), (0 : ℝ))], [((1 : ℝ), (1 : ℝ))]] (-1) (by simp) (by simp) (by simp)).1
    (by norm_num)
  exact ⟨by rw [htot]; norm_num, by rw [h1]; rfl, by rw [h2]; rfl⟩

/-! ## Claims C1 and C2: router behaviour — concrete runs -/

/-- Counterexample to claim C2 as stated: a port whose `node_id` names a
node that does not exist ("cannot be resolved to a node") is NOT returned as
`null`; the guard only checks that the id string is truthy, and when both
ports map to that ghost node the reconstruction block dereferences the
missing node and throws a `TypeError`. -/
theorem C2_counterexample_ghost_node_crashes :
    findPath ⟨[], [], [("PA", ⟨some "PA", "A", "", 0, 0, "G", 0⟩)], [], [], []⟩
        "PA" "PA" none = FPOut.crash ∧
    FPOut.crash ≠ FPOut.noRoute := by
  constructor
  · rfl
  · intro h
    exact FPOut.noConfusion h

/-- Concrete two-node graph with a single edge through chokepoint "Strait",
used to exercise the penalty accounting of `findPath`. -/
noncomputable def graphC1 : GraphIndex :=
  ⟨[("S", ⟨"S", 0, 0⟩), ("T", ⟨"T", 0, 1⟩)],
   [("S", [⟨"S", "T", 100, [], ["Strait"], "L1"⟩]),
    ("T", [⟨"S", "T", 100, [], ["Strait"], "L1"⟩])],
   [("PA", ⟨some "PA", "A", "", 0, 0, "S", 0⟩),
    ("PB", ⟨some "PB", "B", "", 0, 1, "T", 0⟩)],
   [], [], []⟩

/-- Counterexample to claim C1 as stated: with a 1-hour penalty on "Strait",
the only route uses the single 100 km edge, yet the reported `totalDist` is
the penalty-inflated `140.74` (= 100 + 1 · 40.74), not the sum `100` of the
real `dist_km` of the traversed edges. -/
theorem C1_counterexample_penalty_in_total :
    ∃ r, findPath graphC1 "PA" "PB" (some [("Strait", 1)]) = FPOut.route r ∧
      (r.edges.map Edge.dist_km).sum = 100 ∧
      r.totalDist = 140.74 ∧
      (140.74 : ℝ) ≠ 100 := by
  refine ⟨_, rfl, ?_, ?_, by norm_num⟩
  · simp
  · show ((0 : ℝ) + edgeWeight (some [("Strait", 1)]) ⟨"S", "T", 100, [], ["Strait"], "L1"⟩)
      = 140.74
    unfold edgeWeight SHIP_SPEED_KM_H
    simp only [List.foldl_cons, List.foldl_nil, aget_cons, if_pos rfl]
    norm_num

/-! ## Router invariant machinery -/

/-- Adjacency entry of a node (`adjList[u] || []`). -/
def adjOf (g : GraphIndex) (u : String) : List Edge :=
  (aget g.adjList u).getD []

/-- Element ids of the priority queue. -/
def pqIds (pq : List PQEntry) : List String := pq.map PQEntry.element

/-- One enabled traversal step of the router: an edge in `u`'s adjacency
entry that is not disabled and whose other endpoint is `v`. -/
def EnabledStep (g : GraphIndex) (u v : String) : Prop :=
  ∃ e ∈ adjOf g u, isEdgeDisabled g e = false ∧ neighborOf e u = v

/-- Reachability through enabled edges. -/
def Reaches (g : GraphIndex) : String → String → Prop :=
  Relation.ReflTransGen (EnabledStep g)

/-- Well-formedness used by the spec's own invariants: adjacency edges and
non-empty port node ids resolve to existing nodes. -/
def WFGraph (g : GraphIndex) : Prop :=
  (∀ ke es, aget g.adjList ke = some es →
    ∀ e ∈ es, (aget g.nodes e.source).isSome ∧ (aget g.nodes e.target).isSome) ∧
  (∀ pid p, aget g.ports pid = some p →
    p.node_id = "" ∨ (aget g.nodes p.node_id).isSome)

lemma adjOf_resolves {g : GraphIndex} (hwf : WFGraph g) {u : String} {e : Edge}
    (he : e ∈ adjOf g u) :
    (aget g.nodes e.source).isSome ∧ (aget g.nodes e.target).isSome := by
  unfold adjOf at he
  cases h : aget g.adjList u with
  | none => rw [h] at he; simp at he
  | some es =>
    rw [h] at he
    exact hwf.1 u es h e he

lemma neighborOf_resolves {g : GraphIndex} (hwf : WFGraph g) {u : String} {e : Edge}
    (he : e ∈ adjOf g u) : (aget g.nodes (neighborOf e u)).isSome := by
  obtain ⟨h1, h2⟩ := adjOf_resolves hwf he
  unfold neighborOf
  split
  · exact h2
  · exact h1

/-- Index of the first occurrence of a string in a list (length if absent). -/
def posOf : List String → String → ℕ
  | [], _ => 0
  | y :: rest, x => if y = x then 0 else posOf rest x + 1

lemma posOf_lt_length {l : List String} {x : String} (h : x ∈ l) :
    posOf l x < l.length := by
  induction l with
  | nil => simp at h
  | cons y rest ih =>
    unfold posOf
    by_cases hy : y = x
    · simp [hy]
    · rw [if_neg hy]
      simp only [List.length_cons]
      have : x ∈ rest := by
        rcases List.mem_cons.mp h with h | h
        · exact absurd h.symm hy
        · exact h
      exact Nat.succ_lt_succ (ih this)

lemma posOf_append_left {l1 : List String} (l2 : List String) {x : String} (h : x ∈ l1) :
    posOf (l1 ++ l2) x = posOf l1 x := by
  induction l1 with
  | nil => simp at h
  | cons y rest ih =>
    simp only [List.cons_append]
    unfold posOf
    by_cases hy : y = x
    · rw [if_pos hy, if_pos hy]
    · rw [if_neg hy, if_neg hy]
      have : x ∈ rest := by
        rcases List.mem_cons.mp h with h | h
        · exact absurd h.symm hy
        · exact h
      rw [ih this]

lemma posOf_append_self {l1 : List String} {x : String} (h : x ∉ l1) :
    posOf (l1 ++ [x]) x = l1.length := by
  induction l1 with
  | nil => simp [posOf]
  | cons y rest ih =>
    simp only [List.cons_append]
    unfold posOf
    have hy : y ≠ x := fun hc => h (hc ▸ List.mem_cons_self _ _)
    rw [if_neg hy, ih (fun hc => h (List.mem_cons_of_mem _ hc))]
    rfl

lemma aget_mem {α : Type} {l : List (String × α)} {k : String} {v : α}
    (h : aget l k = some v) : (k, v) ∈ l := by
  induction l with
  | nil => simp at h
  | cons hd tl ih =>
    obtain ⟨k0, v0⟩ := hd
    rw [aget_cons] at h
    by_cases hk : k0 = k
    · rw [if_pos hk] at h
      injection h with h
      subst hk
      subst h
      exact List.mem_cons_self _ _
    · rw [if_neg hk] at h
      exact List.mem_cons_of_mem _ (ih h)

lemma mem_adjEndpoints {g : GraphIndex} {u : String} {e : Edge}
    (he : e ∈ adjOf g u) :
    e.source ∈ adjEndpoints g ∧ e.target ∈ adjEndpoints g := by
  unfold adjOf at he
  cases h : aget g.adjList u with
  | none => rw [h] at he; simp at he
  | some es =>
    rw [h] at he
    have hmem := aget_mem h
    unfold adjEndpoints
    constructor <;>
    · rw [List.mem_flatten]
      refine ⟨(es.map (fun e => [e.source, e.target])).flatten, ?_, ?_⟩
      · exact List.mem_map_of_mem _ hmem
      · rw [List.mem_flatten]
        exact ⟨[e.source, e.target], List.mem_map_of_mem _ he, by simp⟩

lemma neighborOf_mem_adjEndpoints {g : GraphIndex} {u : String} {e : Edge}
    (he : e ∈ adjOf g u) : neighborOf e u ∈ adjEndpoints g := by
  obtain ⟨h1, h2⟩ := mem_adjEndpoints he
  unfold neighborOf
  split
  · exact h2
  · exact h1

lemma mem_routerUniverse {g : GraphIndex} {startId x : String} :
    x ∈ routerUniverse g startId ↔ x = startId ∨ x ∈ adjEndpoints g := by
  unfold routerUniverse
  rw [List.mem_dedup, List.mem_cons]

/-- The termination potential of the router loop: queue length plus, for
every not-yet-visited node of the universe, its degree plus one. -/
def potential (g : GraphIndex) (startId : String) (s : DState) : ℕ :=
  s.pq.length +
    (((routerUniverse g startId).filter (fun u => decide (u ∉ s.visited))).map
      (fun u => degOf g u + 1)).sum

lemma filter_snoc_sum (f : String → ℕ) (visited : List String) (u : String)
    (hnv : u ∉ visited) :
    ∀ (U : List String), U.Nodup → u ∈ U →
    ((U.filter (fun x => decide (x ∉ visited))).map f).sum
      = f u + ((U.filter (fun x => decide (x ∉ visited ++ [u]))).map f).sum := by
  intro U
  induction U with
  | nil => intro _ hu; simp at hu
  | cons y rest ih =>
    intro hnd hu
    have hynr : y ∉ rest := (List.nodup_cons.mp hnd).1
    have hndr : rest.Nodup := (List.nodup_cons.mp hnd).2
    by_cases hy : y = u
    · subst hy
      have hc1 : decide (y ∉ visited) = true := by simp [hnv]
      have hc2 : ¬ (decide (y ∉ visited ++ [y]) = true) := by simp
      rw [List.filter_cons, List.filter_cons, if_pos hc1, if_neg hc2]
      rw [List.map_cons, List.sum_cons]
      have hcong : rest.filter (fun x => decide (x ∉ visited ++ [y]))
          = rest.filter (fun x => decide (x ∉ visited)) := by
        apply List.filter_congr
        intro x hx
        have hxy : x ≠ y := fun hc => hynr (hc ▸ hx)
        simp [List.mem_append, hxy]
      rw [hcong]
    · have hur : u ∈ rest := by
        rcases List.mem_cons.mp hu with h | h
        · exact absurd h.symm hy
        · exact h
      by_cases hvy : y ∈ visited
      · have hc1 : ¬ (decide (y ∉ visited) = true) := by simp [hvy]
        have hc2 : ¬ (decide (y ∉ visited ++ [u]) = true) := by
          simp [List.mem_append, hvy]
        rw [List.filter_cons, List.filter_cons, if_neg hc1, if_neg hc2]
        exact ih hndr hur
      · have hc1 : decide (y ∉ visited) = true := by simp [hvy]
        have hc2 : decide (y ∉ visited ++ [u]) = true := by
          simp [List.mem_append, hvy, hy]
        rw [List.filter_cons, List.filter_cons, if_pos hc1, if_pos hc2]
        rw [List.map_cons, List.sum_cons, List.map_cons, List.sum_cons, ih hndr hur]
        ring
  
lemma routerUniverse_nodup (g : GraphIndex) (startId : String) :
    (routerUniverse g startId).Nodup := by
  unfold routerUniverse
  exact List.nodup_dedup _

lemma mem_pqInsert {pq : List PQEntry} {x y : PQEntry} :
    y ∈ pqInsert pq x ↔ y ∈ pq ∨ y = x := by
  induction pq with
  | nil => simp [pqInsert]
  | cons z rest ih =>
    unfold pqInsert
    split
    · rw [List.mem_cons, ih, List.mem_cons]
      tauto
    · rw [List.mem_cons, List.mem_cons]
      tauto

lemma pqInsert_length (pq : List PQEntry) (x : PQEntry) :
    (pqInsert pq x).length = pq.length + 1 := by
  induction pq with
  | nil => rfl
  | cons z rest ih =>
    unfold pqInsert
    split
    · simp [ih]
    · simp

lemma mem_pqIds_pqInsert {pq : List PQEntry} {x : PQEntry} {v : String}
    (h : v ∈ pqIds pq) : v ∈ pqIds (pqInsert pq x) := by
  unfold pqIds at h ⊢
  obtain ⟨ent, hent, rfl⟩ := List.mem_map.mp h
  exact List.mem_map_of_mem _ (mem_pqInsert.mpr (Or.inl hent))

/-- The router-loop invariant during the relaxation of the freshly visited
node `u` (its own adjacency closure is being established edge by edge). -/
structure RInv (g : GraphIndex) (pen : Option (List (String × ℝ)))
    (startId endId u : String) (currentDist : ℝ) (s : DState) : Prop where
  dist_start : aget s.distances startId = some 0
  prev_ok : ∀ v w e, aget s.previous v = some (w, e) →
    w ∈ s.visited ∧ e ∈ adjOf g w ∧ isEdgeDisabled g e = false ∧ neighborOf e w = v ∧
    ∃ du dv, aget s.distances w = some du ∧ aget s.distances v = some dv ∧
      dv = du + edgeWeight pen e
  prev_rank : ∀ v w e, aget s.previous v = some (w, e) → v ∈ s.visited →
    posOf s.visited w < posOf s.visited v
  visited_src : ∀ w ∈ s.visited, w = startId ∨ (aget s.previous w).isSome
  pq_src : ∀ ent ∈ s.pq, ent.element = startId ∨ (aget s.previous ent.element).isSome
  visited_dist : ∀ w ∈ s.visited, (aget s.distances w).isSome
  clos_except : ∀ w ∈ s.visited, w ≠ u → ∀ e ∈ adjOf g w,
    isEdgeDisabled g e = false → (aget s.distances (neighborOf e w)).isSome
  dist_in : ∀ v, (aget s.distances v).isSome → v ∈ s.visited ∨ v ∈ pqIds s.pq
  end_not_vis : endId ∉ s.visited
  vis_nodup : s.visited.Nodup
  u_vis : u ∈ s.visited
  u_dist : aget s.distances u = some currentDist
  start_vis : startId ∈ s.visited
  pq_univ : ∀ ent ∈ s.pq, ent.element ∈ routerUniverse g startId
  vis_univ : ∀ w ∈ s.visited, w ∈ routerUniverse g startId

lemma relaxEdge_ok (g : GraphIndex) (pen : Option (List (String × ℝ)))
    (startId endId u : String) (currentDist : ℝ) (hwf : WFGraph g)
    (hend : (aget g.nodes endId).isSome) (s : DState) (e : Edge)
    (he : e ∈ adjOf g u) (hinv : RInv g pen startId endId u currentDist s) :
    ∃ s2, relaxEdge g pen endId u currentDist s e = .ok s2 ∧
      RInv g pen startId endId u currentDist s2 ∧
      s2.visited = s.visited ∧
      (∀ k, (aget s.distances k).isSome → (aget s2.distances k).isSome) ∧
      (isEdgeDisabled g e = false → (aget s2.distances (neighborOf e u)).isSome) ∧
      s2.pq.length ≤ s.pq.length + 1 := by
  unfold relaxEdge
  by_cases hdis : isEdgeDisabled g e = true
  · rw [if_pos hdis]
    refine ⟨s, rfl, hinv, rfl, fun k h => h, ?_, by omega⟩
    intro hc
    rw [hdis] at hc
    exact absurd hc (by simp)
  · rw [if_neg hdis]
    have hdis' : isEdgeDisabled g e = false := by
      cases h : isEdgeDisabled g e
      · rfl
      · exact absurd h hdis
    dsimp only
    by_cases hvis : s.visited.contains (neighborOf e u)
    · rw [if_pos hvis]
      refine ⟨s, rfl, hinv, rfl, fun k h => h, ?_, by omega⟩
      intro _
      exact hinv.visited_dist _ (List.mem_of_elem_eq_true hvis)
    · rw [if_neg hvis]
      have hnvis : neighborOf e u ∉ s.visited := by
        intro hc
        exact hvis (List.elem_eq_true_of_mem hc)
      by_cases hpass : relaxPasses (aget s.distances (neighborOf e u))
          (currentDist + edgeWeight pen e) = true
      · rw [if_pos hpass]
        obtain ⟨nN, hnN⟩ := Option.isSome_iff_exists.mp (neighborOf_resolves hwf he)
        obtain ⟨eN, heN⟩ := Option.isSome_iff_exists.mp hend
        rw [hnN, heN]
        set nbr := neighborOf e u with hnbr
        set newDist := currentDist + edgeWeight pen e with hnew
        have hneu : nbr ≠ u := fun hc => hnvis (hc ▸ hinv.u_vis)
        have hnes : nbr ≠ startId := fun hc => hnvis (hc ▸ hinv.start_vis)
        refine ⟨_, rfl, ?_, rfl, ?_, ?_, ?_⟩
        · refine ⟨?_, ?_, ?_, ?_, ?_, ?_, ?_, ?_, ?_, ?_, ?_, ?_, ?_, ?_, ?_⟩
          · rw [aget_aset_other _ _ _ _ hnes]
            exact hinv.dist_start
          · intro v w e0 hv
            rw [aget_aset] at hv
            by_cases hveq : nbr = v
            · rw [if_pos hveq] at hv
              injection hv with hv
              injection hv with hv1 hv2
              subst hv1
              subst hv2
              refine ⟨hinv.u_vis, he, hdis', hveq, currentDist, newDist, ?_, ?_, rfl⟩
              · rw [aget_aset_other _ _ _ _ hneu]
                exact hinv.u_dist
              · rw [← hveq, aget_aset_same]
            · rw [if_neg hveq] at hv
              obtain ⟨hw1, hw2, hw3, hw4, du, dv, hdu, hdv, hsum⟩ := hinv.prev_ok v w e0 hv
              have hwne : nbr ≠ w := fun hc => hnvis (hc ▸ hw1)
              refine ⟨hw1, hw2, hw3, hw4, du, dv, ?_, ?_, hsum⟩
              · rw [aget_aset_other _ _ _ _ hwne]
                exact hdu
              · rw [aget_aset_other _ _ _ _ hveq]
                exact hdv
          · intro v w e0 hv hvv
            rw [aget_aset] at hv
            by_cases hveq : nbr = v
            · exact absurd (hveq ▸ hvv) hnvis
            · rw [if_neg hveq] at hv
              exact hinv.prev_rank v w e0 hv hvv
          · intro w hw
            rcases hinv.visited_src w hw with h | h
            · exact Or.inl h
            · exact Or.inr (aget_isSome_aset _ _ _ _ h)
          · intro ent hent
            rcases mem_pqInsert.mp hent with hent | rfl
            · rcases hinv.pq_src ent hent with h | h
              · exact Or.inl h
              · exact Or.inr (aget_isSome_aset _ _ _ _ h)
            · right
              rw [aget_aset_same]
              rfl
          · intro w hw
            exact aget_isSome_aset _ _ _ _ (hinv.visited_dist w hw)
          · intro w hw hwne e0 he0 hd0
            exact aget_isSome_aset _ _ _ _ (hinv.clos_except w hw hwne e0 he0 hd0)
          · intro v hv
            rw [aget_aset] at hv
            by_cases hveq : nbr = v
            · right
              rw [← hveq]
              unfold pqIds
              exact List.mem_map_of_mem _ (mem_pqInsert.mpr (Or.inr rfl))
            · rw [if_neg hveq] at hv
              rcases hinv.dist_in v hv with h | h
              · exact Or.inl h
              · exact Or.inr (mem_pqIds_pqInsert h)
          · exact hinv.end_not_vis
          · exact hinv.vis_nodup
          · exact hinv.u_vis
          · rw [aget_aset_other _ _ _ _ hneu]
            exact hinv.u_dist
          · exact hinv.start_vis
          · intro ent hent
            rcases mem_pqInsert.mp hent with hent | rfl
            · exact hinv.pq_univ ent hent
            · exact mem_routerUniverse.mpr (Or.inr (neighborOf_mem_adjEndpoints he))
          · exact hinv.vis_univ
        · intro k hk
          exact aget_isSome_aset _ _ _ _ hk
        · intro _
          rw [aget_aset_same]
          rfl
        · rw [pqInsert_length]
      · rw [if_neg hpass]
        refine ⟨s, rfl, hinv, rfl, fun k h => h, ?_, by omega⟩
        intro _
        unfold relaxPasses at hpass
        cases hold : aget s.distances (neighborOf e u) with
        | none => simp [hold] at hpass
        | some d => rfl

lemma relaxFold_ok (g : GraphIndex) (pen : Option (List (String × ℝ)))
    (startId endId u : String) (currentDist : ℝ) (hwf : WFGraph g)
    (hend : (aget g.nodes endId).isSome) :
    ∀ (es : List Edge), (∀ e ∈ es, e ∈ adjOf g u) →
    ∀ s, RInv g pen startId endId u currentDist s →
    ∃ s3, es.foldlM (relaxEdge g pen endId u currentDist) s = Except.ok s3 ∧
      RInv g pen startId endId u currentDist s3 ∧
      s3.visited = s.visited ∧
      (∀ k, (aget s.distances k).isSome → (aget s3.distances k).isSome) ∧
      (∀ e ∈ es, isEdgeDisabled g e = false →
        (aget s3.distances (neighborOf e u)).isSome) ∧
      s3.pq.length ≤ s.pq.length + es.length := by
  intro es
  induction es with
  | nil =>
    intro _ s hinv
    exact ⟨s, rfl, hinv, rfl, fun k h => h, by simp, by simp⟩
  | cons e tl ih =>
    intro hsub s hinv
    obtain ⟨s2, hstep, hinv2, hvis2, hmono2, hclos2, hlen2⟩ :=
      relaxEdge_ok g pen startId endId u currentDist hwf hend s e
        (hsub e (List.mem_cons_self _ _)) hinv
    obtain ⟨s3, hfold, hinv3, hvis3, hmono3, hclos3, hlen3⟩ :=
      ih (fun e0 he0 => hsub e0 (List.mem_cons_of_mem _ he0)) s2 hinv2
    refine ⟨s3, ?_, hinv3, by rw [hvis3, hvis2], fun k hk => hmono3 k (hmono2 k hk), ?_, ?_⟩
    · rw [List.foldlM_cons, hstep]
      exact hfold
    · intro e0 he0 hd0
      rcases List.mem_cons.mp he0 with rfl | he0
      · exact hmono3 _ (hclos2 hd0)
      · exact hclos3 e0 he0 hd0
    · simp only [List.length_cons]
      omega

lemma reconWalk_succ (g : GraphIndex) (startId : String)
    (prev : List (String × String × Edge)) (f : ℕ) (curr : String)
    (path : List (Option GNode)) (edges : List Edge) :
    reconWalk g startId prev (f + 1) curr path edges =
      if curr = startId then some (path, edges)
      else
        match aget prev curr with
        | some (pn, pe) =>
          reconWalk g startId prev f pn (path ++ [aget g.nodes curr]) (edges ++ [pe])
        | none => some (path ++ [aget g.nodes curr], edges) := rfl

/-- The reconstruction measure: number of remaining chain steps from `curr`,
bounded through the visit order. -/
def reconMeasure (visited : List String) (startId curr : String) : ℕ :=
  if curr = startId then 0
  else if curr ∈ visited then posOf visited curr + 1
  else visited.length + 1

lemma reconWalk_chain (g : GraphIndex) (pen : Option (List (String × ℝ)))
    (startId : String) (hwf : WFGraph g) (s : DState)
    (hds : aget s.distances startId = some 0)
    (hpok : ∀ v w e, aget s.previous v = some (w, e) →
      w ∈ s.visited ∧ e ∈ adjOf g w ∧ isEdgeDisabled g e = false ∧ neighborOf e w = v ∧
      ∃ du dv, aget s.distances w = some du ∧ aget s.distances v = some dv ∧
        dv = du + edgeWeight pen e)
    (hrank : ∀ v w e, aget s.previous v = some (w, e) → v ∈ s.visited →
      posOf s.visited w < posOf s.visited v)
    (hvsrc : ∀ w ∈ s.visited, w = startId ∨ (aget s.previous w).isSome) :
    ∀ (fuel : ℕ) (curr : String) (dcurr : ℝ) (path : List (Option GNode))
      (edges : List Edge),
      aget s.distances curr = some dcurr →
      (curr = startId ∨ (aget s.previous curr).isSome) →
      ((aget g.nodes curr).isSome ∨ curr = startId) →
      reconMeasure s.visited startId curr < fuel →
      ∃ dpath dedges,
        reconWalk g startId s.previous fuel curr path edges
          = some (path ++ dpath, edges ++ dedges) ∧
        dcurr = (dedges.map (edgeWeight pen)).sum ∧
        Reaches g startId curr ∧
        (∀ x ∈ dpath, x.isSome) := by
  intro fuel
  induction fuel using Nat.strong_induction_on with
  | _ fuel ih =>
    intro curr dcurr path edges hdc hsrc hres hm
    cases fuel with
    | zero => omega
    | succ f =>
      rw [reconWalk_succ]
      by_cases hcs : curr = startId
      · rw [if_pos hcs]
        refine ⟨[], [], by simp, ?_, ?_, by simp⟩
        · subst hcs
          rw [hds] at hdc
          injection hdc with hdc
          rw [← hdc]
          simp
        · rw [hcs]
          exact Relation.ReflTransGen.refl
      · rw [if_neg hcs]
        rcases hsrc with hsrc | hsrc
        · exact absurd hsrc hcs
        · obtain ⟨⟨w, e⟩, hpair⟩ := Option.isSome_iff_exists.mp hsrc
          rw [hpair]
          obtain ⟨hwv, hwe, hwd, hwn, du, dv, hdu, hdv, hsum⟩ := hpok curr w e hpair
          have hdveq : dv = dcurr := by
            rw [hdc] at hdv
            exact (Option.some.inj hdv).symm
          have hwres : (aget g.nodes w).isSome ∨ w = startId := by
            by_cases hws : w = startId
            · exact Or.inr hws
            · rcases hvsrc w hwv with h | h
              · exact absurd h hws
              · obtain ⟨⟨w2, e2⟩, hp2⟩ := Option.isSome_iff_exists.mp h
                obtain ⟨-, he2, -, hn2, -⟩ := hpok w w2 e2 hp2
                left
                rw [← hn2]
                exact neighborOf_resolves hwf he2
          have hwsrc : w = startId ∨ (aget s.previous w).isSome := hvsrc w hwv
          have hmw : reconMeasure s.visited startId w < f := by
            unfold reconMeasure at hm ⊢
            rw [if_neg hcs] at hm
            by_cases hws : w = startId
            · rw [if_pos hws]
              split at hm <;> omega
            · rw [if_neg hws, if_pos hwv]
              have hwlt := posOf_lt_length hwv
              by_cases hcv : curr ∈ s.visited
              · rw [if_pos hcv] at hm
                have := hrank curr w e hpair hcv
                omega
              · rw [if_neg hcv] at hm
                omega
          obtain ⟨dpath2, dedges2, hrec, hsum2, hreach2, hres2⟩ :=
            ih f (by omega) w du (path ++ [aget g.nodes curr]) (edges ++ [e])
              hdu hwsrc hwres hmw
          refine ⟨[aget g.nodes curr] ++ dpath2, [e] ++ dedges2, ?_, ?_, ?_, ?_⟩
          · dsimp only
            rw [hrec]
            simp
          · rw [← hdveq, hsum, hsum2]
            simp only [List.map_append, List.map_cons, List.map_nil, List.sum_append,
              List.sum_cons, List.sum_nil]
            ring
          · exact Relation.ReflTransGen.tail hreach2 ⟨e, hwe, hwd, hwn⟩
          · intro x hx
            rcases List.mem_append.mp hx with hx | hx
            · rw [List.mem_singleton] at hx
              subst hx
              rcases hres with h | h
              · exact h
              · exact absurd h hcs
            · exact hres2 x hx

/-- The router-loop invariant between iterations. -/
structure DInv (g : GraphIndex) (pen : Option (List (String × ℝ)))
    (startId endId : String) (s : DState) : Prop where
  dist_start : aget s.distances startId = some 0
  prev_ok : ∀ v w e, aget s.previous v = some (w, e) →
    w ∈ s.visited ∧ e ∈ adjOf g w ∧ isEdgeDisabled g e = false ∧ neighborOf e w = v ∧
    ∃ du dv, aget s.distances w = some du ∧ aget s.distances v = some dv ∧
      dv = du + edgeWeight pen e
  prev_rank : ∀ v w e, aget s.previous v = some (w, e) → v ∈ s.visited →
    posOf s.visited w < posOf s.visited v
  visited_src : ∀ w ∈ s.visited, w = startId ∨ (aget s.previous w).isSome
  pq_src : ∀ ent ∈ s.pq, ent.element = startId ∨ (aget s.previous ent.element).isSome
  visited_dist : ∀ w ∈ s.visited, (aget s.distances w).isSome
  dist_closure : ∀ w ∈ s.visited, ∀ e ∈ adjOf g w, isEdgeDisabled g e = false →
    (aget s.distances (neighborOf e w)).isSome
  dist_in : ∀ v, (aget s.distances v).isSome → v ∈ s.visited ∨ v ∈ pqIds s.pq
  end_not_vis : endId ∉ s.visited
  vis_nodup : s.visited.Nodup
  start_vis : startId ∈ s.visited ∨
    (s.visited = [] ∧ s.previous = [] ∧ s.distances = [(startId, 0)] ∧
      s.pq = [⟨startId, 0⟩])
  pq_univ : ∀ ent ∈ s.pq, ent.element ∈ routerUniverse g startId
  vis_univ : ∀ w ∈ s.visited, w ∈ routerUniverse g startId

/-- When the queue is exhausted, the visited set is closed under enabled
steps and contains the start but not the destination, so the destination is
unreachable. -/
lemma exhaustion_unreachable (g : GraphIndex) (pen : Option (List (String × ℝ)))
    (startId endId : String) (s : DState)
    (hinv : DInv g pen startId endId s) (hpq : s.pq = []) :
    ¬ Reaches g startId endId := by
  have hstart : startId ∈ s.visited := by
    rcases hinv.start_vis with h | ⟨-, -, -, h4⟩
    · exact h
    · rw [h4] at hpq
      exact absurd hpq (by simp)
  have hclosed : ∀ v w, v ∈ s.visited → EnabledStep g v w → w ∈ s.visited := by
    rintro v w hv ⟨e, he, hd, hn⟩
    have hsome := hinv.dist_closure v hv e he hd
    rw [hn] at hsome
    rcases hinv.dist_in w hsome with h | h
    · exact h
    · rw [hpq] at h
      simp [pqIds] at h
  have hall : ∀ v, Reaches g startId v → v ∈ s.visited := by
    intro v hv
    induction hv with
    | refl => exact hstart
    | tail h1 h2 ih => exact hclosed _ _ ih h2
  intro hreach
  exact hinv.end_not_vis (hall endId hreach)

/-- The reconstruction-and-return block succeeds (no crash, enough fuel) and
returns a route whose reported total is the sum of the relaxation weights of
its edges, given the chain invariants. -/
lemma buildRoute_ok (g : GraphIndex) (pen : Option (List (String × ℝ)))
    (startId endId : String) (hwf : WFGraph g)
    (hsn : (aget g.nodes startId).isSome) (hen : (aget g.nodes endId).isSome)
    (s : DState)
    (hds : aget s.distances startId = some 0)
    (hpok : ∀ v w e, aget s.previous v = some (w, e) →
      w ∈ s.visited ∧ e ∈ adjOf g w ∧ isEdgeDisabled g e = false ∧ neighborOf e w = v ∧
      ∃ du dv, aget s.distances w = some du ∧ aget s.distances v = some dv ∧
        dv = du + edgeWeight pen e)
    (hrank : ∀ v w e, aget s.previous v = some (w, e) → v ∈ s.visited →
      posOf s.visited w < posOf s.visited v)
    (hvsrc : ∀ w ∈ s.visited, w = startId ∨ (aget s.previous w).isSome)
    (hendnv : endId ∉ s.visited)
    (D : ℝ) (hd : aget s.distances endId = some D)
    (hsrc : endId = startId ∨ (aget s.previous endId).isSome) :
    ∃ r, buildRoute g startId endId s = FPOut.route r ∧
      r.totalDist = (r.edges.map (edgeWeight pen)).sum ∧
      Reaches g startId endId := by
  have hm : reconMeasure s.visited startId endId
      < s.previous.length + s.visited.length + 2 := by
    unfold reconMeasure
    by_cases h1 : endId = startId
    · rw [if_pos h1]
      omega
    · rw [if_neg h1, if_neg hendnv]
      omega
  obtain ⟨dpath, dedges, hwalk, hsum, hreach0, hres⟩ :=
    reconWalk_chain g pen startId hwf s hds hpok hrank hvsrc
      (s.previous.length + s.visited.length + 2) endId D [] [] hd hsrc
      (Or.inl hen) hm
  unfold buildRoute
  rw [hwalk]
  simp only [List.nil_append]
  obtain ⟨sN, hsN⟩ := Option.isSome_iff_exists.mp hsn
  rw [hsN]
  have hall : ((dpath ++ [some sN]).reverse).all Option.isSome = true := by
    rw [List.all_eq_true]
    intro x hx
    rw [List.mem_reverse] at hx
    rcases List.mem_append.mp hx with hx | hx
    · exact hres x hx
    · rw [List.mem_singleton] at hx
      subst hx
      rfl
  dsimp only
  rw [if_pos hall]
  refine ⟨_, rfl, ?_, hreach0⟩
  show (aget s.distances endId).getD 0 = ((dedges.reverse).map (edgeWeight pen)).sum
  rw [hd]
  simp only [Option.getD_some]
  rw [List.map_reverse, List.sum_reverse]
  exact hsum

/-- Popping a fresh node from the queue and marking it visited yields the
relaxation invariant. -/
lemma pop_fresh (g : GraphIndex) (pen : Option (List (String × ℝ)))
    (startId endId : String) (s : DState) (entry : PQEntry) (pqRest : List PQEntry)
    (currentDist : ℝ) (hinv : DInv g pen startId endId s)
    (hpq : s.pq = entry :: pqRest)
    (hdc : aget s.distances entry.element = some currentDist)
    (hfresh : entry.element ∉ s.visited) (hne : entry.element ≠ endId) :
    RInv g pen startId endId entry.element currentDist
      ⟨s.distances, s.previous, pqRest, s.visited ++ [entry.element]⟩ := by
  have hpq_mem : entry ∈ s.pq := by rw [hpq]; exact List.mem_cons_self _ _
  have hstart2 : startId ∈ s.visited ++ [entry.element] := by
    rcases hinv.start_vis with h | ⟨h1, h2, h3, h4⟩
    · exact List.mem_append.mpr (Or.inl h)
    · rw [hpq] at h4
      have : entry = ⟨startId, 0⟩ := (List.cons.inj h4).1
      rw [List.mem_append]
      right
      rw [this]
      simp
  refine ⟨hinv.dist_start, ?_, ?_, ?_, ?_, ?_, ?_, ?_, ?_, ?_, ?_, hdc, hstart2, ?_, ?_⟩
  · intro v w e hv
    obtain ⟨h1, h2, h3, h4, h5⟩ := hinv.prev_ok v w e hv
    exact ⟨List.mem_append.mpr (Or.inl h1), h2, h3, h4, h5⟩
  · intro v w e hv hvv
    obtain ⟨hw1, -, -, -, -⟩ := hinv.prev_ok v w e hv
    dsimp only at hvv ⊢
    rcases List.mem_append.mp hvv with hvv | hvv
    · rw [posOf_append_left _ hw1, posOf_append_left _ hvv]
      exact hinv.prev_rank v w e hv hvv
    · rw [List.mem_singleton] at hvv
      subst hvv
      rw [posOf_append_left _ hw1, posOf_append_self hfresh]
      exact posOf_lt_length hw1
  · intro w hw
    rcases List.mem_append.mp hw with hw | hw
    · exact hinv.visited_src w hw
    · rw [List.mem_singleton] at hw
      subst hw
      exact hinv.pq_src entry hpq_mem
  · intro ent hent
    exact hinv.pq_src ent (by rw [hpq]; exact List.mem_cons_of_mem _ hent)
  · intro w hw
    rcases List.mem_append.mp hw with hw | hw
    · exact hinv.visited_dist w hw
    · rw [List.mem_singleton] at hw
      subst hw
      rw [hdc]
      rfl
  · intro w hw hwne e he hd
    rcases List.mem_append.mp hw with hw | hw
    · exact hinv.dist_closure w hw e he hd
    · rw [List.mem_singleton] at hw
      exact absurd hw hwne
  · intro v hv
    rcases hinv.dist_in v hv with h | h
    · exact Or.inl (List.mem_append.mpr (Or.inl h))
    · rw [hpq] at h
      unfold pqIds at h
      rw [List.map_cons, List.mem_cons] at h
      rcases h with h | h
      · left
        rw [List.mem_append, h]
        right
        simp
      · exact Or.inr h
  · intro hc
    rcases List.mem_append.mp hc with hc | hc
    · exact hinv.end_not_vis hc
    · rw [List.mem_singleton] at hc
      exact hne hc.symm
  · rw [List.nodup_append]
    exact ⟨hinv.vis_nodup, List.nodup_singleton _, by
      intro x hx hxe
      rw [List.mem_singleton] at hxe
      subst hxe
      exact hfresh hx⟩
  · exact List.mem_append.mpr (Or.inr (by simp))
  · intro ent hent
    exact hinv.pq_univ ent (by rw [hpq]; exact List.mem_cons_of_mem _ hent)
  · intro w hw
    rcases List.mem_append.mp hw with hw | hw
    · exact hinv.vis_univ w hw
    · rw [List.mem_singleton] at hw
      subst hw
      exact hinv.pq_univ entry hpq_mem

/-- After the relaxation fold of a freshly visited node has established the
closure of its adjacency, the full loop invariant holds again. -/
lemma reassemble (g : GraphIndex) (pen : Option (List (String × ℝ)))
    (startId endId u : String) (currentDist : ℝ) (s3 : DState)
    (hinv : RInv g pen startId endId u currentDist s3)
    (hclos : ∀ e ∈ adjOf g u, isEdgeDisabled g e = false →
      (aget s3.distances (neighborOf e u)).isSome) :
    DInv g pen startId endId s3 := by
  refine ⟨hinv.dist_start, hinv.prev_ok, hinv.prev_rank, hinv.visited_src, hinv.pq_src,
    hinv.visited_dist, ?_, hinv.dist_in, hinv.end_not_vis, hinv.vis_nodup,
    Or.inl hinv.start_vis, hinv.pq_univ, hinv.vis_univ⟩
  intro w hw e he hd
  by_cases hwu : w = u
  · subst hwu
    exact hclos e he hd
  · exact hinv.clos_except w hw hwu e he hd

lemma dijkstraLoop_succ (g : GraphIndex) (pen : Option (List (String × ℝ)))
    (startId endId : String) (f : ℕ) (s : DState) :
    dijkstraLoop g pen startId endId (f + 1) s =
      match s.pq with
      | [] => FPOut.noRoute
      | entry :: pqRest =>
        match aget s.distances entry.element with
        | none => dijkstraLoop g pen startId endId f { s with pq := pqRest }
        | some currentDist =>
          if entry.element = endId then
            buildRoute g startId endId { s with pq := pqRest }
          else if s.visited.contains entry.element then
            dijkstraLoop g pen startId endId f { s with pq := pqRest }
          else
            match ((aget g.adjList entry.element).getD []).foldlM
                (relaxEdge g pen endId entry.element currentDist)
                ⟨s.distances, s.previous, pqRest, s.visited ++ [entry.element]⟩ with
            | .error _ => FPOut.crash
            | .ok s3 => dijkstraLoop g pen startId endId f s3 := rfl

/-- The main loop theorem: under the loop invariant and with fuel above the
potential, the loop never crashes, never exhausts its fuel, returns `noRoute`
only when the destination is unreachable, and every returned route reports as
its total the sum of the relaxation weights of its edges and certifies
reachability. -/
lemma dijkstraLoop_main (g : GraphIndex) (pen : Option (List (String × ℝ)))
    (startId endId : String) (hwf : WFGraph g)
    (hsn : (aget g.nodes startId).isSome) (hen : (aget g.nodes endId).isSome) :
    ∀ (fuel : ℕ) (s : DState), DInv g pen startId endId s →
      potential g startId s < fuel →
      (dijkstraLoop g pen startId endId fuel s = FPOut.noRoute →
        ¬ Reaches g startId endId) ∧
      (∀ r, dijkstraLoop g pen startId endId fuel s = FPOut.route r →
        r.totalDist = (r.edges.map (edgeWeight pen)).sum ∧
        Reaches g startId endId) ∧
      dijkstraLoop g pen startId endId fuel s ≠ FPOut.crash ∧
      dijkstraLoop g pen startId endId fuel s ≠ FPOut.fuelOut := by
  intro fuel
  induction fuel using Nat.strong_induction_on with
  | _ fuel ih =>
    intro s hinv hpot
    cases fuel with
    | zero => omega
    | succ f =>
      rw [dijkstraLoop_succ]
      cases hpq : s.pq with
      | nil =>
        dsimp only
        refine ⟨fun _ => exhaustion_unreachable g pen startId endId s hinv hpq,
          ?_, ?_, ?_⟩
        · intro r hr
          exact absurd hr (by simp)
        · intro hc
          exact absurd hc (by simp)
        · intro hc
          exact absurd hc (by simp)
      | cons entry pqRest =>
        dsimp only
        have hentry_mem : entry ∈ s.pq := by
          rw [hpq]
          exact List.mem_cons_self _ _
        cases hdc : aget s.distances entry.element with
        | none =>
          dsimp only
          have hinv1 : DInv g pen startId endId { s with pq := pqRest } := by
            refine ⟨hinv.dist_start, hinv.prev_ok, hinv.prev_rank, hinv.visited_src,
              ?_, hinv.visited_dist, hinv.dist_closure, ?_, hinv.end_not_vis,
              hinv.vis_nodup, ?_, ?_, hinv.vis_univ⟩
            · intro ent hent
              exact hinv.pq_src ent (by rw [hpq]; exact List.mem_cons_of_mem _ hent)
            · intro v hv
              rcases hinv.dist_in v hv with h | h
              · exact Or.inl h
              · rw [hpq] at h
                unfold pqIds at h
                rw [List.map_cons, List.mem_cons] at h
                rcases h with h | h
                · exfalso
                  rw [h, hdc] at hv
                  exact absurd hv (by simp)
                · exact Or.inr h
            · rcases hinv.start_vis with h | ⟨h1, h2, h3, h4⟩
              · exact Or.inl h
              · exfalso
                rw [hpq] at h4
                have he : entry = ⟨startId, 0⟩ := (List.cons.inj h4).1
                rw [h3, he] at hdc
                dsimp only at hdc
                rw [aget_cons, if_pos rfl] at hdc
                exact absurd hdc (by simp)
            · intro ent hent
              exact hinv.pq_univ ent (by rw [hpq]; exact List.mem_cons_of_mem _ hent)
          have hpot1 : potential g startId { s with pq := pqRest } < f := by
            unfold potential at hpot ⊢
            rw [hpq] at hpot
            dsimp only at hpot ⊢
            simp only [List.length_cons] at hpot
            omega
          exact ih f (Nat.lt_succ_self f) _ hinv1 hpot1
        | some currentDist =>
          dsimp only
          by_cases hend : entry.element = endId
          · rw [if_pos hend]
            have hsrc : endId = startId ∨ (aget s.previous endId).isSome := by
              rw [← hend]
              exact hinv.pq_src entry hentry_mem
            obtain ⟨r, hr, hsum, hreach⟩ :=
              buildRoute_ok g pen startId endId hwf hsn hen { s with pq := pqRest }
                hinv.dist_start hinv.prev_ok hinv.prev_rank hinv.visited_src
                hinv.end_not_vis currentDist (by rw [← hend]; exact hdc) hsrc
            rw [hr]
            refine ⟨?_, ?_, by simp, by simp⟩
            · intro hc
              exact absurd hc (by simp)
            · intro r' hr'
              obtain rfl := FPOut.route.inj hr'
              exact ⟨hsum, hreach⟩
          · rw [if_neg hend]
            by_cases hvis : s.visited.contains entry.element = true
            · rw [if_pos hvis]
              have hmem : entry.element ∈ s.visited := List.mem_of_elem_eq_true hvis
              have hinv1 : DInv g pen startId endId { s with pq := pqRest } := by
                refine ⟨hinv.dist_start, hinv.prev_ok, hinv.prev_rank, hinv.visited_src,
                  ?_, hinv.visited_dist, hinv.dist_closure, ?_, hinv.end_not_vis,
                  hinv.vis_nodup, ?_, ?_, hinv.vis_univ⟩
                · intro ent hent
                  exact hinv.pq_src ent (by rw [hpq]; exact List.mem_cons_of_mem _ hent)
                · intro v hv
                  rcases hinv.dist_in v hv with h | h
                  · exact Or.inl h
                  · rw [hpq] at h
                    unfold pqIds at h
                    rw [List.map_cons, List.mem_cons] at h
                    rcases h with h | h
                    · exact Or.inl (h ▸ hmem)
                    · exact Or.inr h
                · rcases hinv.start_vis with h | ⟨h1, h2, h3, h4⟩
                  · exact Or.inl h
                  · exfalso
                    rw [h1] at hmem
                    exact absurd hmem (by simp)
                · intro ent hent
                  exact hinv.pq_univ ent (by rw [hpq]; exact List.mem_cons_of_mem _ hent)
              have hpot1 : potential g startId { s with pq := pqRest } < f := by
                unfold potential at hpot ⊢
                rw [hpq] at hpot
                dsimp only at hpot ⊢
                simp only [List.length_cons] at hpot
                omega
              exact ih f (Nat.lt_succ_self f) _ hinv1 hpot1
            · rw [if_neg hvis]
              have hfresh : entry.element ∉ s.visited := fun hc =>
                hvis (List.elem_eq_true_of_mem hc)
              have rinv2 := pop_fresh g pen startId endId s entry pqRest currentDist
                hinv hpq hdc hfresh hend
              obtain ⟨s3, hfold, hinv3, hvis3, hmono3, hclos3, hlen3⟩ :=
                relaxFold_ok g pen startId endId entry.element currentDist hwf hen
                  ((aget g.adjList entry.element).getD []) (fun e he => he)
                  ⟨s.distances, s.previous, pqRest, s.visited ++ [entry.element]⟩ rinv2
              rw [hfold]
              dsimp only
              have hinvD3 : DInv g pen startId endId s3 :=
                reassemble g pen startId endId entry.element currentDist s3 hinv3
                  (fun e he hd => hclos3 e he hd)
              have hu_univ : entry.element ∈ routerUniverse g startId :=
                hinv.pq_univ entry hentry_mem
              have hsnoc := filter_snoc_sum (fun u => degOf g u + 1) s.visited
                entry.element hfresh (routerUniverse g startId)
                (routerUniverse_nodup g startId) hu_univ
              have hpot3 : potential g startId s3 < f := by
                have h1 : potential g startId s
                    = pqRest.length + 1 +
                      (((routerUniverse g startId).filter
                        (fun u => decide (u ∉ s.visited))).map
                          (fun u => degOf g u + 1)).sum := by
                  unfold potential
                  rw [hpq]
                  rfl
                have h2 : potential g startId s3
                    = s3.pq.length +
                      (((routerUniverse g startId).filter
                        (fun u => decide (u ∉ s.visited ++ [entry.element]))).map
                          (fun u => degOf g u + 1)).sum := by
                  unfold potential
                  simp only [hvis3]
                have h3 : ((aget g.adjList entry.element).getD []).length
                    = degOf g entry.element := rfl
                dsimp only at hlen3 hsnoc
                rw [h3] at hlen3
                rw [h1] at hpot
                omega
              exact ih f (Nat.lt_succ_self f) s3 hinvD3 hpot3

/-- Well-formedness from list-membership form (for concrete graphs). -/
lemma wf_of_mem (g : GraphIndex)
    (h1 : ∀ kv ∈ g.adjList, ∀ e ∈ kv.2,
      (aget g.nodes e.source).isSome ∧ (aget g.nodes e.target).isSome)
    (h2 : ∀ pv ∈ g.ports, pv.2.node_id = "" ∨ (aget g.nodes pv.2.node_id).isSome) :
    WFGraph g :=
  ⟨fun ke es h e he => h1 (ke, es) (aget_mem h) e he,
   fun pid p h => h2 (pid, p) (aget_mem h)⟩

lemma graphC1_wf : WFGraph graphC1 := by
  refine wf_of_mem _ ?_ ?_
  · intro kv hkv e he
    simp only [graphC1] at hkv
    rcases List.mem_cons.mp hkv with rfl | hkv
    · rcases List.mem_singleton.mp he with rfl
      exact ⟨rfl, rfl⟩
    · rcases List.mem_singleton.mp hkv with rfl
      rcases List.mem_singleton.mp he with rfl
      exact ⟨rfl, rfl⟩
  · intro pv hpv
    simp only [graphC1] at hpv
    rcases List.mem_cons.mp hpv with rfl | hpv
    · exact Or.inr rfl
    · rcases List.mem_singleton.mp hpv with rfl
      exact Or.inr rfl

/-- The initial loop state satisfies the loop invariant. -/
lemma init_DInv (g : GraphIndex) (pen : Option (List (String × ℝ))) (sN eN : String) :
    DInv g pen sN eN
      { distances := [(sN, 0)], previous := [], pq := [⟨sN, 0⟩], visited := [] } := by
  refine ⟨?_, ?_, ?_, ?_, ?_, ?_, ?_, ?_, ?_, ?_, ?_, ?_, ?_⟩
  · dsimp only
    rw [aget_cons, if_pos rfl]
  · intro v w e hv
    simp at hv
  · intro v w e hv
    simp at hv
  · intro w hw
    simp at hw
  · intro ent hent
    rcases List.mem_singleton.mp hent with rfl
    exact Or.inl rfl
  · intro w hw
    simp at hw
  · intro w hw
    simp at hw
  · intro v hv
    dsimp only at hv
    rw [aget_cons] at hv
    by_cases hsv : sN = v
    · right
      subst hsv
      show sN ∈ [sN]
      simp
    · rw [if_neg hsv] at hv
      exact absurd hv (by simp)
  · simp
  · exact List.nodup_nil
  · exact Or.inr ⟨rfl, rfl, rfl, rfl⟩
  · intro ent hent
    rcases List.mem_singleton.mp hent with rfl
    exact mem_routerUniverse.mpr (Or.inl rfl)
  · intro w hw
    simp at hw

/-- The fuel passed by `findPath` strictly dominates the initial potential. -/
lemma init_potential (g : GraphIndex) (sN : String) :
    potential g sN
        { distances := [(sN, 0)], previous := [], pq := [⟨sN, 0⟩], visited := [] }
      < initialFuel g sN := by
  unfold potential initialFuel
  dsimp only
  rw [List.filter_eq_self.mpr]
  · simp only [List.length_cons, List.length_nil]
    omega
  · intro a _
    simp

/-- Specification of the loop call exactly as `findPath` issues it. -/
lemma findPath_loop_spec (g : GraphIndex) (pen : Option (List (String × ℝ)))
    (sN eN : String) (hwf : WFGraph g)
    (hsn : (aget g.nodes sN).isSome) (hen : (aget g.nodes eN).isSome) :
    (dijkstraLoop g pen sN eN (initialFuel g sN)
        { distances := [(sN, 0)], previous := [], pq := [⟨sN, 0⟩], visited := [] }
        = FPOut.noRoute → ¬ Reaches g sN eN) ∧
    (∀ r, dijkstraLoop g pen sN eN (initialFuel g sN)
        { distances := [(sN, 0)], previous := [], pq := [⟨sN, 0⟩], visited := [] }
        = FPOut.route r →
      r.totalDist = (r.edges.map (edgeWeight pen)).sum ∧ Reaches g sN eN) ∧
    dijkstraLoop g pen sN eN (initialFuel g sN)
        { distances := [(sN, 0)], previous := [], pq := [⟨sN, 0⟩], visited := [] }
      ≠ FPOut.crash ∧
    dijkstraLoop g pen sN eN (initialFuel g sN)
        { distances := [(sN, 0)], previous := [], pq := [⟨sN, 0⟩], visited := [] }
      ≠ FPOut.fuelOut :=
  dijkstraLoop_main g pen sN eN hwf hsn hen (initialFuel g sN) _
    (init_DInv g pen sN eN) (init_potential g sN)

/-- Claim C1 (amended): for a well-formed graph, whenever `findPath` returns
a route, the reported `totalDist` equals the sum of the *penalized*
relaxation weights `edgeWeight` of the traversed edges (real `dist_km` plus
the positive delay penalties converted at 40.74 km/h) — not the unpenalized
sum of the `dist_km` alone, which the counterexample shows can differ. -/
theorem C1_totalDist_is_penalized_weight_sum (g : GraphIndex)
    (pen : Option (List (String × ℝ))) (a b : String) (r : RouteResultFE)
    (hwf : WFGraph g) (h : findPath g a b pen = FPOut.route r) :
    r.totalDist = (r.edges.map (edgeWeight pen)).sum := by
  unfold findPath at h
  by_cases hdis : (g.disabledPorts.contains a ∨ g.disabledPorts.contains b)
  · rw [if_pos hdis] at h
    exact absurd h (by simp)
  · rw [if_neg hdis] at h
    cases hpa : (aget g.ports a).map Port.node_id with
    | none =>
      cases hpb : (aget g.ports b).map Port.node_id with
      | none =>
        rw [hpa, hpb] at h
        dsimp only at h
        exact absurd h (by simp)
      | some eN =>
        rw [hpa, hpb] at h
        dsimp only at h
        exact absurd h (by simp)
    | some sN =>
      cases hpb : (aget g.ports b).map Port.node_id with
      | none =>
        rw [hpa, hpb] at h
        dsimp only at h
        exact absurd h (by simp)
      | some eN =>
        rw [hpa, hpb] at h
        dsimp only at h
        by_cases hempty : (sN = "" ∨ eN = "")
        · rw [if_pos hempty] at h
          exact absurd h (by simp)
        · rw [if_neg hempty] at h
          push_neg at hempty
          obtain ⟨pa, hpa1, hpa2⟩ := Option.map_eq_some'.mp hpa
          obtain ⟨pb, hpb1, hpb2⟩ := Option.map_eq_some'.mp hpb
          have hsn : (aget g.nodes sN).isSome := by
            rcases hwf.2 a pa hpa1 with hz | hz
            · rw [hpa2] at hz
              exact absurd hz hempty.1
            · rw [hpa2] at hz
              exact hz
          have hen : (aget g.nodes eN).isSome := by
            rcases hwf.2 b pb hpb1 with hz | hz
            · rw [hpb2] at hz
              exact absurd hz hempty.2
            · rw [hpb2] at hz
              exact hz
          exact ((findPath_loop_spec g pen sN eN hwf hsn hen).2.1 r h).1

theorem C1_totalDist_is_penalized_weight_sum_witness :
    ∃ r, findPath graphC1 "PA" "PB" none = FPOut.route r ∧
      r.totalDist = (r.edges.map (edgeWeight none)).sum := by
  refine ⟨_, rfl, ?_⟩
  exact C1_totalDist_is_penalized_weight_sum graphC1 none "PA" "PB" _ graphC1_wf rfl

/-- For a well-formed graph, `findPath` never throws and never runs out of
fuel, and it returns `null` exactly when a port is disabled, a port id fails
to resolve, a resolved `node_id` is the empty string, or the destination is
unreachable (helper shared by the claim-level theorems). -/
lemma findPath_modes (g : GraphIndex)
    (pen : Option (List (String × ℝ))) (a b : String) (hwf : WFGraph g) :
    findPath g a b pen ≠ FPOut.crash ∧
    findPath g a b pen ≠ FPOut.fuelOut ∧
    (findPath g a b pen = FPOut.noRoute ↔
      (g.disabledPorts.contains a ∨ g.disabledPorts.contains b) ∨
      ∀ sN eN, (aget g.ports a).map Port.node_id = some sN →
        (aget g.ports b).map Port.node_id = some eN →
        sN = "" ∨ eN = "" ∨ ¬ Reaches g sN eN) := by
  by_cases hdis : (g.disabledPorts.contains a ∨ g.disabledPorts.contains b)
  · have hfp : findPath g a b pen = FPOut.noRoute := by
      unfold findPath
      rw [if_pos hdis]
    refine ⟨by rw [hfp]; simp, by rw [hfp]; simp, ?_⟩
    rw [hfp]
    exact ⟨fun _ => Or.inl hdis, fun _ => rfl⟩
  · cases hpa : (aget g.ports a).map Port.node_id with
    | none =>
      have hfp : findPath g a b pen = FPOut.noRoute := by
        unfold findPath
        rw [if_neg hdis, hpa]
      refine ⟨by rw [hfp]; simp, by rw [hfp]; simp, ?_⟩
      rw [hfp]
      refine ⟨fun _ => Or.inr ?_, fun _ => rfl⟩
      intro sN eN h1 h2
      exact absurd h1 (by simp)
    | some sN =>
      cases hpb : (aget g.ports b).map Port.node_id with
      | none =>
        have hfp : findPath g a b pen = FPOut.noRoute := by
          unfold findPath
          rw [if_neg hdis, hpa, hpb]
        refine ⟨by rw [hfp]; simp, by rw [hfp]; simp, ?_⟩
        rw [hfp]
        refine ⟨fun _ => Or.inr ?_, fun _ => rfl⟩
        intro sN' eN' h1 h2
        exact absurd h2 (by simp)
      | some eN =>
        by_cases hempty : (sN = "" ∨ eN = "")
        · have hfp : findPath g a b pen = FPOut.noRoute := by
            unfold findPath
            rw [if_neg hdis, hpa, hpb]
            dsimp only
            rw [if_pos hempty]
          refine ⟨by rw [hfp]; simp, by rw [hfp]; simp, ?_⟩
          rw [hfp]
          refine ⟨fun _ => Or.inr ?_, fun _ => rfl⟩
          intro sN' eN' h1 h2
          obtain rfl := Option.some.inj h1
          obtain rfl := Option.some.inj h2
          rcases hempty with h | h
          · exact Or.inl h
          · exact Or.inr (Or.inl h)
        · have hfp : findPath g a b pen
              = dijkstraLoop g pen sN eN (initialFuel g sN)
                { distances := [(sN, 0)], previous := [], pq := [⟨sN, 0⟩],
                  visited := [] } := by
            unfold findPath
            rw [if_neg hdis, hpa, hpb]
            dsimp only
            rw [if_neg hempty]
          push_neg at hempty
          obtain ⟨pa, hpa1, hpa2⟩ := Option.map_eq_some'.mp hpa
          obtain ⟨pb, hpb1, hpb2⟩ := Option.map_eq_some'.mp hpb
          have hsn : (aget g.nodes sN).isSome := by
            rcases hwf.2 a pa hpa1 with hz | hz
            · rw [hpa2] at hz
              exact absurd hz hempty.1
            · rw [hpa2] at hz
              exact hz
          have hen : (aget g.nodes eN).isSome := by
            rcases hwf.2 b pb hpb1 with hz | hz
            · rw [hpb2] at hz
              exact absurd hz hempty.2
            · rw [hpb2] at hz
              exact hz
          obtain ⟨hno, hroute, hcrash, hfuel⟩ := findPath_loop_spec g pen sN eN hwf hsn hen
          refine ⟨by rw [hfp]; exact hcrash, by rw [hfp]; exact hfuel, ?_⟩
          rw [hfp]
          constructor
          · intro hnr
            right
            intro sN' eN' h1 h2
            obtain rfl := Option.some.inj h1
            obtain rfl := Option.some.inj h2
            exact Or.inr (Or.inr (hno hnr))
          · intro hrhs
            have hnr : ¬ Reaches g sN eN := by
              rcases hrhs with h | h
              · exact absurd h hdis
              · rcases h sN eN rfl rfl with h | h | h
                · exact absurd h hempty.1
                · exact absurd h hempty.2
                · exact h
            cases hout : dijkstraLoop g pen sN eN (initialFuel g sN)
                { distances := [(sN, 0)], previous := [], pq := [⟨sN, 0⟩],
                  visited := [] } with
            | crash => exact absurd hout hcrash
            | fuelOut => exact absurd hout hfuel
            | noRoute => rfl
            | route r => exact absurd (hroute r hout).2 hnr

/-- Claim C2 (amended): for a *well-formed* graph (every non-empty port
`node_id` resolves and adjacency endpoints resolve — the counterexample shows
an unresolvable ghost `node_id` instead crashes with a `TypeError`),
`findPath` never throws and never runs out of fuel, and it returns the
NotFound value `null` exactly when a port is disabled, a port id fails to
resolve to a port record, a resolved `node_id` is the empty string (the only
"unresolvable node id" the guard actually catches), or the destination node
is unreachable from the start node through enabled edges. -/
theorem C2_findPath_failure_modes (g : GraphIndex)
    (pen : Option (List (String × ℝ))) (a b : String) (hwf : WFGraph g) :
    findPath g a b pen ≠ FPOut.crash ∧
    findPath g a b pen ≠ FPOut.fuelOut ∧
    (findPath g a b pen = FPOut.noRoute ↔
      (g.disabledPorts.contains a ∨ g.disabledPorts.contains b) ∨
      ∀ sN eN, (aget g.ports a).map Port.node_id = some sN →
        (aget g.ports b).map Port.node_id = some eN →
        sN = "" ∨ eN = "" ∨ ¬ Reaches g sN eN) :=
  findPath_modes g pen a b hwf

theorem C2_findPath_failure_modes_witness :
    findPath graphC1 "PA" "PB" none ≠ FPOut.crash ∧
    findPath graphC1 "PA" "PB" none ≠ FPOut.fuelOut :=
  ⟨(C2_findPath_failure_modes graphC1 none "PA" "PB" graphC1_wf).1,
   (C2_findPath_failure_modes graphC1 none "PA" "PB" graphC1_wf).2.1⟩

/-! ## Claim C4: direction symmetry of `findPath` totals -/

lemma pqInsert_nil (x : PQEntry) : pqInsert [] x = [x] := rfl

lemma pqInsert_cons (y : PQEntry) (rest : List PQEntry) (x : PQEntry) :
    pqInsert (y :: rest) x =
      if y.priority ≤ x.priority then y :: pqInsert rest x else x :: y :: rest := rfl

/-- The dateline-aware heuristic between the equatorial points `(0, 1)` and
`(0, 0)` is `6371 * π / 180 ≈ 111 km`, in particular more than `7`. -/
lemma nodeHeuristic_equator_big : 7 < nodeHeuristic 0 1 0 0 := by
  unfold nodeHeuristic
  dsimp only
  have hw : wrappedLonDelta 1 0 = -1 := by
    unfold wrappedLonDelta
    rw [show (0 : ℝ) - 1 = -1 by norm_num, wrapDown_of_le (by norm_num),
      wrapUp_of_ge (by norm_num)]
  rw [hw]
  have hpi := Real.pi_pos
  have h1 : ((0 : ℝ) - 0) * Real.pi / 180 / 2 = 0 := by ring
  have h2 : (-1 : ℝ) * Real.pi / 180 / 2 = -(Real.pi / 360) := by ring
  have h3 : (0 : ℝ) * Real.pi / 180 = 0 := by ring
  rw [h1, h2, h3, Real.sin_zero, Real.cos_zero, Real.sin_neg]
  have hθnn : 0 ≤ Real.pi / 360 := by linarith
  have hθpi : Real.pi / 360 ≤ Real.pi := by linarith
  have hθlt : Real.pi / 360 < Real.pi / 2 := by linarith
  have hθgt : -(Real.pi / 2) < Real.pi / 360 := by linarith
  have hsin_nn : 0 ≤ Real.sin (Real.pi / 360) :=
    Real.sin_nonneg_of_nonneg_of_le_pi hθnn hθpi
  have hcos_pos : 0 < Real.cos (Real.pi / 360) :=
    Real.cos_pos_of_mem_Ioo ⟨hθgt, hθlt⟩
  have ha : (0 : ℝ) * 0 + 1 * 1 *
      (-Real.sin (Real.pi / 360) * -Real.sin (Real.pi / 360))
      = Real.sin (Real.pi / 360) * Real.sin (Real.pi / 360) := by ring
  rw [ha]
  have hs : Real.sqrt (Real.sin (Real.pi / 360) * Real.sin (Real.pi / 360))
      = Real.sin (Real.pi / 360) := Real.sqrt_mul_self hsin_nn
  have hcsq : 1 - Real.sin (Real.pi / 360) * Real.sin (Real.pi / 360)
      = Real.cos (Real.pi / 360) * Real.cos (Real.pi / 360) := by
    nlinarith [Real.sin_sq_add_cos_sq (Real.pi / 360)]
  have hc : Real.sqrt (1 - Real.sin (Real.pi / 360) * Real.sin (Real.pi / 360))
      = Real.cos (Real.pi / 360) := by
    rw [hcsq, Real.sqrt_mul_self hcos_pos.le]
  rw [hs, hc]
  unfold jsAtan2
  rw [if_pos hcos_pos, ← Real.tan_eq_sin_div_cos, Real.arctan_tan hθgt hθlt]
  have hpi3 := Real.pi_gt_three
  nlinarith

noncomputable def eC4a : Edge := ⟨"S", "X", 2, [], [], "LA"⟩

noncomputable def eC4b : Edge := ⟨"X", "T", 3, [], [], "LB"⟩

noncomputable def eC4c : Edge := ⟨"S", "T", 10, [], [], "LC"⟩

noncomputable def nodesC4 : List (String × GNode) :=
  [("S", ⟨"S", 0, 0⟩), ("X", ⟨"X", 0, 1⟩), ("T", ⟨"T", 0, 1⟩)]

noncomputable def portsC4 : List (String × Port) :=
  [("PA", ⟨some "PA", "A", "", 0, 0, "S", 0⟩),
   ("PB", ⟨some "PB", "B", "", 0, 1, "T", 0⟩)]

/-- Raw payload for the symmetry counterexample: three nodes on the equator
(`X` and `T` co-located at `lon 1`), a short two-hop path `S–X–T` (2 km +
3 km) and a long direct edge `S–T` (10 km). -/
noncomputable def rawC4 : RawGraphData :=
  ⟨some nodesC4, some [eC4a, eC4b, eC4c], some portsC4, some []⟩

/-- The index produced by loading `rawC4`: each edge is entered into both
endpoints' adjacency lists, and no dateline bridges arise. -/
noncomputable def gC4 : GraphIndex :=
  ⟨nodesC4,
   [("S", [eC4a, eC4c]), ("X", [eC4a, eC4b]), ("T", [eC4b, eC4c])],
   portsC4, [], [], []⟩

lemma candidatesNegC4 : candidatesNeg nodesC4 = [] := by
  unfold candidatesNeg nodesC4
  simp only [List.map_cons, List.map_nil, List.filter_cons, List.filter_nil,
    decide_eq_true_eq]
  norm_num

lemma datelineC4 (adj : List (String × List Edge)) :
    addDatelineBridges nodesC4 adj = ⟨0, [], adj⟩ := by
  unfold addDatelineBridges
  rw [candidatesNegC4]
  rfl

/-- Loading `rawC4` over a fresh index succeeds and produces exactly `gC4`. -/
lemma loadC4 : loadFromData ⟨none, [], none, none, [], []⟩ rawC4
    = .ok gC4.toRaw := by
  unfold loadFromData rawC4
  dsimp only
  rw [datelineC4]
  rfl

lemma exc_foldlM_nil {ε σ α : Type} (f : σ → α → Except ε σ) (s : σ) :
    ([] : List α).foldlM f s = .ok s := rfl

lemma exc_foldlM_cons {ε σ α : Type} (f : σ → α → Except ε σ) (s : σ) (x : α)
    (xs : List α) :
    (x :: xs).foldlM f s = (f s x).bind (fun s2 => xs.foldlM f s2) := rfl

lemma exc_bind_ok {ε σ τ : Type} (a : σ) (f : σ → Except ε τ) :
    (Except.ok a : Except ε σ).bind f = f a := rfl

/-- Symbolic run of `findPath` from `PA` to `PB` on `gC4`: the heuristic of
`X` towards the co-located destination `T` is zero, so `X` is expanded before
the direct edge is settled and the short path `S–X–T` wins. -/
lemma C4fwd_run : findPath gC4 "PA" "PB" none
    = buildRoute gC4 "S" "T"
      ⟨[("S", 0), ("X", 0 + 2), ("T", 0 + 2 + 3)],
       [("X", ("S", eC4a)), ("T", ("X", eC4b))],
       [⟨"T", (0 : ℝ) + 10 + nodeHeuristic 0 1 0 1⟩],
       ["S", "X"]⟩ := by
  have hq1 : pqInsert [⟨"X", (0 : ℝ) + 2 + nodeHeuristic 0 1 0 1⟩]
      ⟨"T", (0 : ℝ) + 10 + nodeHeuristic 0 1 0 1⟩
      = [⟨"X", (0 : ℝ) + 2 + nodeHeuristic 0 1 0 1⟩,
         ⟨"T", (0 : ℝ) + 10 + nodeHeuristic 0 1 0 1⟩] := by
    rw [pqInsert_cons]
    dsimp only
    rw [if_pos (show (0 : ℝ) + 2 + nodeHeuristic 0 1 0 1
        ≤ (0 : ℝ) + 10 + nodeHeuristic 0 1 0 1 from by
      rw [nodeHeuristic_self]
      norm_num), pqInsert_nil]
  have h1 : findPath gC4 "PA" "PB" none
      = dijkstraLoop gC4 none "S" "T" 10
        ⟨[("S", 0), ("X", 0 + 2), ("T", 0 + 10)],
         [("X", ("S", eC4a)), ("T", ("S", eC4c))],
         pqInsert [⟨"X", (0 : ℝ) + 2 + nodeHeuristic 0 1 0 1⟩]
           ⟨"T", (0 : ℝ) + 10 + nodeHeuristic 0 1 0 1⟩,
         ["S"]⟩ := rfl
  rw [hq1] at h1
  have hq2 : pqInsert [⟨"T", (0 : ℝ) + 10 + nodeHeuristic 0 1 0 1⟩]
      ⟨"T", (0 : ℝ) + 2 + 3 + nodeHeuristic 0 1 0 1⟩
      = [⟨"T", (0 : ℝ) + 2 + 3 + nodeHeuristic 0 1 0 1⟩,
         ⟨"T", (0 : ℝ) + 10 + nodeHeuristic 0 1 0 1⟩] := by
    rw [pqInsert_cons]
    dsimp only
    rw [if_neg (show ¬((0 : ℝ) + 10 + nodeHeuristic 0 1 0 1
        ≤ (0 : ℝ) + 2 + 3 + nodeHeuristic 0 1 0 1) from by
      rw [nodeHeuristic_self]
      norm_num)]
  have hskip : relaxEdge gC4 none "T" "X" ((0 : ℝ) + 2)
      ⟨[("S", 0), ("X", 0 + 2), ("T", 0 + 10)],
       [("X", ("S", eC4a)), ("T", ("S", eC4c))],
       [⟨"T", (0 : ℝ) + 10 + nodeHeuristic 0 1 0 1⟩],
       ["S", "X"]⟩ eC4a
      = .ok ⟨[("S", 0), ("X", 0 + 2), ("T", 0 + 10)],
       [("X", ("S", eC4a)), ("T", ("S", eC4c))],
       [⟨"T", (0 : ℝ) + 10 + nodeHeuristic 0 1 0 1⟩],
       ["S", "X"]⟩ := rfl
  have hrp : relaxPasses (some ((0 : ℝ) + 10)) ((0 : ℝ) + 2 + 3) = true := by
    unfold relaxPasses
    dsimp only
    rw [decide_eq_false (show ¬((0 : ℝ) + 10 = 0) from by norm_num),
      decide_eq_true (show (0 : ℝ) + 2 + 3 < (0 : ℝ) + 10 from by norm_num)]
    rfl
  have hrelB : relaxEdge gC4 none "T" "X" ((0 : ℝ) + 2)
      ⟨[("S", 0), ("X", 0 + 2), ("T", 0 + 10)],
       [("X", ("S", eC4a)), ("T", ("S", eC4c))],
       [⟨"T", (0 : ℝ) + 10 + nodeHeuristic 0 1 0 1⟩],
       ["S", "X"]⟩ eC4b
      = .ok ⟨[("S", 0), ("X", 0 + 2), ("T", 0 + 2 + 3)],
       [("X", ("S", eC4a)), ("T", ("X", eC4b))],
       [⟨"T", (0 : ℝ) + 2 + 3 + nodeHeuristic 0 1 0 1⟩,
        ⟨"T", (0 : ℝ) + 10 + nodeHeuristic 0 1 0 1⟩],
       ["S", "X"]⟩ := by
    rw [show relaxEdge gC4 none "T" "X" ((0 : ℝ) + 2)
        ⟨[("S", 0), ("X", 0 + 2), ("T", 0 + 10)],
         [("X", ("S", eC4a)), ("T", ("S", eC4c))],
         [⟨"T", (0 : ℝ) + 10 + nodeHeuristic 0 1 0 1⟩],
         ["S", "X"]⟩ eC4b
        = (if relaxPasses (some ((0 : ℝ) + 10)) ((0 : ℝ) + 2 + 3) = true then
            (Except.ok (⟨[("S", 0), ("X", 0 + 2), ("T", 0 + 2 + 3)],
              [("X", ("S", eC4a)), ("T", ("X", eC4b))],
              pqInsert [⟨"T", (0 : ℝ) + 10 + nodeHeuristic 0 1 0 1⟩]
                ⟨"T", (0 : ℝ) + 2 + 3 + nodeHeuristic 0 1 0 1⟩,
              ["S", "X"]⟩ : DState) : Except Unit DState)
          else .ok ⟨[("S", 0), ("X", 0 + 2), ("T", 0 + 10)],
            [("X", ("S", eC4a)), ("T", ("S", eC4c))],
            [⟨"T", (0 : ℝ) + 10 + nodeHeuristic 0 1 0 1⟩],
            ["S", "X"]⟩) from rfl, hrp, if_pos rfl, hq2]
  have hfold : [eC4a, eC4b].foldlM (relaxEdge gC4 none "T" "X" ((0 : ℝ) + 2))
      ⟨[("S", 0), ("X", 0 + 2), ("T", 0 + 10)],
       [("X", ("S", eC4a)), ("T", ("S", eC4c))],
       [⟨"T", (0 : ℝ) + 10 + nodeHeuristic 0 1 0 1⟩],
       ["S", "X"]⟩
      = Except.ok ⟨[("S", 0), ("X", 0 + 2), ("T", 0 + 2 + 3)],
       [("X", ("S", eC4a)), ("T", ("X", eC4b))],
       [⟨"T", (0 : ℝ) + 2 + 3 + nodeHeuristic 0 1 0 1⟩,
        ⟨"T", (0 : ℝ) + 10 + nodeHeuristic 0 1 0 1⟩],
       ["S", "X"]⟩ := by
    simp only [exc_foldlM_cons, exc_foldlM_nil, exc_bind_ok, hskip, hrelB]
  have h2 : dijkstraLoop gC4 none "S" "T" 10
      ⟨[("S", 0), ("X", 0 + 2), ("T", 0 + 10)],
       [("X", ("S", eC4a)), ("T", ("S", eC4c))],
       [⟨"X", (0 : ℝ) + 2 + nodeHeuristic 0 1 0 1⟩,
        ⟨"T", (0 : ℝ) + 10 + nodeHeuristic 0 1 0 1⟩],
       ["S"]⟩
      = dijkstraLoop gC4 none "S" "T" 9
        ⟨[("S", 0), ("X", 0 + 2), ("T", 0 + 2 + 3)],
         [("X", ("S", eC4a)), ("T", ("X", eC4b))],
         [⟨"T", (0 : ℝ) + 2 + 3 + nodeHeuristic 0 1 0 1⟩,
          ⟨"T", (0 : ℝ) + 10 + nodeHeuristic 0 1 0 1⟩],
         ["S", "X"]⟩ := by
    rw [show dijkstraLoop gC4 none "S" "T" 10
        ⟨[("S", 0), ("X", 0 + 2), ("T", 0 + 10)],
         [("X", ("S", eC4a)), ("T", ("S", eC4c))],
         [⟨"X", (0 : ℝ) + 2 + nodeHeuristic 0 1 0 1⟩,
          ⟨"T", (0 : ℝ) + 10 + nodeHeuristic 0 1 0 1⟩],
         ["S"]⟩
        = (match [eC4a, eC4b].foldlM (relaxEdge gC4 none "T" "X" ((0 : ℝ) + 2))
            ⟨[("S", 0), ("X", 0 + 2), ("T", 0 + 10)],
             [("X", ("S", eC4a)), ("T", ("S", eC4c))],
             [⟨"T", (0 : ℝ) + 10 + nodeHeuristic 0 1 0 1⟩],
             ["S", "X"]⟩ with
          | .error _ => FPOut.crash
          | .ok s3 => dijkstraLoop gC4 none "S" "T" 9 s3) from rfl, hfold]
  have h3 : dijkstraLoop gC4 none "S" "T" 9
      ⟨[("S", 0), ("X", 0 + 2), ("T", 0 + 2 + 3)],
       [("X", ("S", eC4a)), ("T", ("X", eC4b))],
       [⟨"T", (0 : ℝ) + 2 + 3 + nodeHeuristic 0 1 0 1⟩,
        ⟨"T", (0 : ℝ) + 10 + nodeHeuristic 0 1 0 1⟩],
       ["S", "X"]⟩
      = buildRoute gC4 "S" "T"
        ⟨[("S", 0), ("X", 0 + 2), ("T", 0 + 2 + 3)],
         [("X", ("S", eC4a)), ("T", ("X", eC4b))],
         [⟨"T", (0 : ℝ) + 10 + nodeHeuristic 0 1 0 1⟩],
         ["S", "X"]⟩ := rfl
  rw [h1, h2]
  exact h3

/-- Symbolic run of `findPath` from `PB` to `PA` on `gC4`: the heuristic of
`X` towards the destination `S` is ≈111 km, which outweighs the 10 km direct
edge, so `S` is dequeued first and the long direct edge wins. -/
lemma C4bwd_run : findPath gC4 "PB" "PA" none
    = buildRoute gC4 "T" "S"
      ⟨[("T", 0), ("X", 0 + 3), ("S", 0 + 10)],
       [("X", ("T", eC4b)), ("S", ("T", eC4c))],
       [⟨"X", (0 : ℝ) + 3 + nodeHeuristic 0 1 0 0⟩],
       ["T"]⟩ := by
  have hqB : pqInsert [⟨"X", (0 : ℝ) + 3 + nodeHeuristic 0 1 0 0⟩]
      ⟨"S", (0 : ℝ) + 10 + nodeHeuristic 0 0 0 0⟩
      = [⟨"S", (0 : ℝ) + 10 + nodeHeuristic 0 0 0 0⟩,
         ⟨"X", (0 : ℝ) + 3 + nodeHeuristic 0 1 0 0⟩] := by
    rw [pqInsert_cons]
    dsimp only
    rw [if_neg (show ¬((0 : ℝ) + 3 + nodeHeuristic 0 1 0 0
        ≤ (0 : ℝ) + 10 + nodeHeuristic 0 0 0 0) from by
      rw [nodeHeuristic_self]
      have := nodeHeuristic_equator_big
      intro hc
      linarith)]
  have hB1 : findPath gC4 "PB" "PA" none
      = dijkstraLoop gC4 none "T" "S" 10
        ⟨[("T", 0), ("X", 0 + 3), ("S", 0 + 10)],
         [("X", ("T", eC4b)), ("S", ("T", eC4c))],
         pqInsert [⟨"X", (0 : ℝ) + 3 + nodeHeuristic 0 1 0 0⟩]
           ⟨"S", (0 : ℝ) + 10 + nodeHeuristic 0 0 0 0⟩,
         ["T"]⟩ := rfl
  rw [hB1, hqB]
  exact rfl

/-- Counterexample to claim C4 as stated: on the loaded graph `gC4` (three
equatorial nodes, `X` co-located with `T`; edges `S–X` 2 km, `X–T` 3 km,
`S–T` 10 km, all entered into both endpoints' adjacency lists; no disabled
ports or chokepoints) the reported totals differ by direction: 5 km from
`PA` to `PB` but 10 km from `PB` to `PA`.  The A* heuristic is not admissible
relative to the data's `dist_km` values, so the search may settle the
destination through a suboptimal path in one direction only. -/
theorem C4_counterexample_totalDist_asymmetric :
    loadFromData ⟨none, [], none, none, [], []⟩ rawC4 = .ok gC4.toRaw ∧
    gC4.disabledPorts = [] ∧ gC4.disabledChokepoints = [] ∧
    ∃ r1 r2, findPath gC4 "PA" "PB" none = FPOut.route r1 ∧
      findPath gC4 "PB" "PA" none = FPOut.route r2 ∧
      r1.totalDist = 5 ∧ r2.totalDist = 10 ∧ (5 : ℝ) ≠ 10 := by
  obtain ⟨r1, hr1, ht1⟩ : ∃ r1, findPath gC4 "PA" "PB" none = FPOut.route r1 ∧
      r1.totalDist = 5 := by
    refine ⟨_, C4fwd_run.trans rfl, ?_⟩
    show (0 : ℝ) + 2 + 3 = 5
    norm_num
  obtain ⟨r2, hr2, ht2⟩ : ∃ r2, findPath gC4 "PB" "PA" none = FPOut.route r2 ∧
      r2.totalDist = 10 := by
    refine ⟨_, C4bwd_run.trans rfl, ?_⟩
    show (0 : ℝ) + 10 = 10
    norm_num
  exact ⟨loadC4, rfl, rfl, r1, r2, hr1, hr2, ht1, ht2, by norm_num⟩

/-- Mirror property of an adjacency structure: every registered edge has a
counterpart (same chokepoint set, hence the same disabled status) registered
under the other endpoint and pointing back. -/
def AdjSym (adj : List (String × List Edge)) : Prop :=
  ∀ u e, e ∈ (aget adj u).getD [] →
    ∃ f, f ∈ (aget adj (neighborOf e u)).getD [] ∧
      neighborOf f (neighborOf e u) = u ∧ f.chokepoints = e.chokepoints

lemma mem_aget_adjPush {a : List (String × List Edge)} {k0 u : String} {x f : Edge} :
    f ∈ (aget (adjPush a k0 x) u).getD [] ↔
      f ∈ (aget a u).getD [] ∨ (k0 = u ∧ f = x) := by
  rw [aget_adjPush]
  by_cases hk : k0 = u
  · rw [if_pos hk]
    simp [hk]
  · rw [if_neg hk]
    simp [hk]

lemma AdjSym_nil : AdjSym [] := by
  intro u e he
  simp at he

lemma AdjSym_pushPair {a : List (String × List Edge)} {k1 k2 : String} {f1 f2 : Edge}
    (h : AdjSym a) (h1 : neighborOf f1 k1 = k2) (h2 : neighborOf f2 k2 = k1)
    (hc : f1.chokepoints = f2.chokepoints) :
    AdjSym (adjPush (adjPush a k1 f1) k2 f2) := by
  intro u e he
  rw [mem_aget_adjPush, mem_aget_adjPush] at he
  rcases he with (he | ⟨rfl, rfl⟩) | ⟨rfl, rfl⟩
  · obtain ⟨f, hf, hfn, hfc⟩ := h u e he
    exact ⟨f, mem_aget_adjPush.mpr (Or.inl (mem_aget_adjPush.mpr (Or.inl hf))), hfn, hfc⟩
  · refine ⟨f2, ?_, ?_, hc.symm⟩
    · rw [h1]
      exact mem_aget_adjPush.mpr (Or.inr ⟨rfl, rfl⟩)
    · rw [h1]
      exact h2
  · refine ⟨f1, ?_, ?_, hc⟩
    · rw [h2]
      exact mem_aget_adjPush.mpr (Or.inl (mem_aget_adjPush.mpr (Or.inr ⟨rfl, rfl⟩)))
    · rw [h2]
      exact h1

lemma AdjSym_edgeIntoAdj {a : List (String × List Edge)} (h : AdjSym a) (e : Edge) :
    AdjSym (edgeIntoAdj a e) := by
  unfold edgeIntoAdj
  refine AdjSym_pushPair h ?_ ?_ rfl
  · unfold neighborOf
    rw [if_pos rfl]
  · unfold neighborOf
    by_cases hs : e.source = e.target
    · rw [if_pos hs]
      exact hs.symm
    · rw [if_neg hs]

lemma AdjSym_foldl_edges : ∀ (es : List Edge) (a : List (String × List Edge)),
    AdjSym a → AdjSym (es.foldl edgeIntoAdj a) := by
  intro es
  induction es with
  | nil => intro a h; exact h
  | cons e tl ih =>
    intro a h
    exact ih _ (AdjSym_edgeIntoAdj h e)

lemma AdjSym_buildAdjList (es : List Edge) : AdjSym (buildAdjList es) :=
  AdjSym_foldl_edges es [] AdjSym_nil

lemma neighborOf_bridge_src (u v : GNode) :
    neighborOf (bridgeEdge u v) ((bridgeEdge u v).source) = (bridgeEdge v u).source := by
  unfold neighborOf bridgeEdge
  dsimp only
  rw [if_pos rfl]

lemma AdjSym_bridge_fold (cPos : List GNode) :
    ∀ (l : List GNode) (a : List (String × List Edge)), AdjSym a →
    AdjSym ((l.flatMap (bridgePairFor cPos)).foldl
      (fun a e => adjPush a e.source e) a) := by
  intro l
  induction l with
  | nil => intro a h; exact h
  | cons u tl ih =>
    intro a h
    rw [List.flatMap_cons, List.foldl_append]
    apply ih
    unfold bridgePairFor
    cases hbm : bestMatch u cPos with
    | none => exact h
    | some vd =>
      obtain ⟨v, d⟩ := vd
      dsimp only
      by_cases hlt : d < 2
      · rw [if_pos hlt]
        simp only [List.foldl_cons, List.foldl_nil]
        exact AdjSym_pushPair h (neighborOf_bridge_src u v) (neighborOf_bridge_src v u) rfl
      · rw [if_neg hlt]
        exact h

/-- The adjacency produced by a successful `loadFromData` is mirrored. -/
lemma AdjSym_load {g0 : GraphIndexRaw} {data : RawGraphData} {gr : GraphIndexRaw}
    (h : loadFromData g0 data = .ok gr) : AdjSym gr.adjList := by
  unfold loadFromData at h
  cases hp : data.ports with
  | none =>
    rw [hp] at h
    exact absurd h (by simp)
  | some ps =>
    rw [hp] at h
    dsimp only at h
    cases hn : data.nodes with
    | none =>
      rw [hn] at h
      exact absurd h (by simp)
    | some ns =>
      rw [hn] at h
      dsimp only at h
      have hadj := congrArg GraphIndexRaw.adjList (Except.ok.inj h)
      dsimp only at hadj
      rw [← hadj]
      unfold addDatelineBridges
      obtain ⟨-, hdl, -⟩ := dateline_foldl_spec (candidatesPos ns) (candidatesNeg ns)
        ⟨0, [], match data.edges with
          | some es => buildAdjList es
          | none => []⟩
      rw [hdl]
      apply AdjSym_bridge_fold
      cases he : data.edges with
      | some es =>
        dsimp only
        exact AdjSym_buildAdjList es
      | none =>
        dsimp only
        exact AdjSym_nil

/-- Enabled reachability is symmetric over a mirrored adjacency. -/
lemma Reaches_symm_of_AdjSym {g : GraphIndex} (h : AdjSym g.adjList) {u v : String}
    (hr : Reaches g u v) : Reaches g v u := by
  have hstep : ∀ x y, EnabledStep g x y → EnabledStep g y x := by
    rintro x y ⟨e, he, hd, hn⟩
    obtain ⟨f, hf, hfn, hfc⟩ := h x e he
    rw [hn] at hf hfn
    refine ⟨f, hf, ?_, hfn⟩
    unfold isEdgeDisabled at hd ⊢
    rw [hfc]
    exact hd
  induction hr with
  | refl => exact Relation.ReflTransGen.refl
  | tail h1 h2 ih =>
    exact Relation.ReflTransGen.trans
      (Relation.ReflTransGen.single (hstep _ _ h2)) ih

/-- Claim C4 (amended): what direction symmetry the code actually has.  On
any graph produced by a successful `loadFromData` (every edge is entered
into both endpoints' adjacency lists, and dateline bridges are added in
mirrored pairs), route EXISTENCE is symmetric: `findPath(A,B)` returns
`null` exactly when `findPath(B,A)` does, and returns a route exactly when
`findPath(B,A)` does.  The reported totals, however, need NOT be equal: the
counterexample exhibits a loaded, blockade-free graph with totals 5 km and
10 km for the two directions, because the A* heuristic is not admissible
with respect to the data's `dist_km` values. -/
theorem C4_route_existence_symmetric (g0 : GraphIndexRaw) (data : RawGraphData)
    (g : GraphIndex) (pen : Option (List (String × ℝ))) (a b : String)
    (hload : loadFromData g0 data = .ok g.toRaw) (hwf : WFGraph g) :
    (findPath g a b pen = FPOut.noRoute ↔ findPath g b a pen = FPOut.noRoute) ∧
    ((∃ r, findPath g a b pen = FPOut.route r) ↔
      (∃ r, findPath g b a pen = FPOut.route r)) := by
  have hsym : AdjSym g.adjList := AdjSym_load hload
  have hreach : ∀ sN eN, ¬ Reaches g sN eN → ¬ Reaches g eN sN :=
    fun sN eN hn hr => hn (Reaches_symm_of_AdjSym hsym hr)
  obtain ⟨hcr1, hfo1, hno1⟩ := findPath_modes g pen a b hwf
  obtain ⟨hcr2, hfo2, hno2⟩ := findPath_modes g pen b a hwf
  have hiff : findPath g a b pen = FPOut.noRoute ↔
      findPath g b a pen = FPOut.noRoute := by
    rw [hno1, hno2]
    constructor
    · rintro (h | h)
      · exact Or.inl (Or.symm h)
      · right
        intro sN eN h1 h2
        rcases h eN sN h2 h1 with h' | h' | h'
        · exact Or.inr (Or.inl h')
        · exact Or.inl h'
        · exact Or.inr (Or.inr (hreach eN sN h'))
    · rintro (h | h)
      · exact Or.inl (Or.symm h)
      · right
        intro sN eN h1 h2
        rcases h eN sN h2 h1 with h' | h' | h'
        · exact Or.inr (Or.inl h')
        · exact Or.inl h'
        · exact Or.inr (Or.inr (hreach eN sN h'))
  refine ⟨hiff, ?_, ?_⟩
  · rintro ⟨r, hr⟩
    cases hout : findPath g b a pen with
    | crash => exact absurd hout hcr2
    | fuelOut => exact absurd hout hfo2
    | noRoute =>
      have hno := hiff.mpr hout
      rw [hr] at hno
      exact absurd hno (by simp)
    | route r2 => exact ⟨r2, rfl⟩
  · rintro ⟨r, hr⟩
    cases hout : findPath g a b pen with
    | crash => exact absurd hout hcr1
    | fuelOut => exact absurd hout hfo1
    | noRoute =>
      have hno := hiff.mp hout
      rw [hr] at hno
      exact absurd hno (by simp)
    | route r2 => exact ⟨r2, rfl⟩

lemma gC4_wf : WFGraph gC4 := by
  refine wf_of_mem _ ?_ ?_
  · intro kv hkv e he
    simp only [gC4] at hkv
    rcases List.mem_cons.mp hkv with rfl | hkv
    · rcases List.mem_cons.mp he with rfl | he
      · exact ⟨rfl, rfl⟩
      · rcases List.mem_singleton.mp he with rfl
        exact ⟨rfl, rfl⟩
    · rcases List.mem_cons.mp hkv with rfl | hkv
      · rcases List.mem_cons.mp he with rfl | he
        · exact ⟨rfl, rfl⟩
        · rcases List.mem_singleton.mp he with rfl
          exact ⟨rfl, rfl⟩
      · rcases List.mem_singleton.mp hkv with rfl
        rcases List.mem_cons.mp he with rfl | he
        · exact ⟨rfl, rfl⟩
        · rcases List.mem_singleton.mp he with rfl
          exact ⟨rfl, rfl⟩
  · intro pv hpv
    simp only [gC4, portsC4] at hpv
    rcases List.mem_cons.mp hpv with rfl | hpv
    · exact Or.inr rfl
    · rcases List.mem_singleton.mp hpv with rfl
      exact Or.inr rfl

theorem C4_route_existence_symmetric_witness :
    (findPath gC4 "PA" "PB" none = FPOut.noRoute ↔
      findPath gC4 "PB" "PA" none = FPOut.noRoute) ∧
    ((∃ r, findPath gC4 "PA" "PB" none = FPOut.route r) ↔
      (∃ r, findPath gC4 "PB" "PA" none = FPOut.route r)) :=
  C4_route_existence_symmetric ⟨none, [], none, none, [], []⟩ rawC4 gC4 none
    "PA" "PB" loadC4 gC4_wf
